import Mathlib

/-!
# The select()-based socket driver of qpid-proton (proton-c/src/windows/driver.c)

A shallow embedding of the driver: the reactor (`pn_driver_t`), its listeners and
connectors, the three phases of `pn_driver_wait`, the fairness cursors and the
per-connector byte pump `pn_connector_process`.

Conventions of the embedding.

* A pointer to a listener or connector is a natural number, the address of the node
  (`id`); `none` is `NULL`.  The intrusive doubly linked lists of the driver are the
  lists of their nodes in head-to-tail order, so `x->listener_next` is the node that
  follows `x` in the list and `listener_head` is the first node.
* The operating system and the transport are passed in explicitly: the value `recv`
  or `send` returns, the clock, the sets `select` hands back, and the transport as a
  state machine whose state is threaded through `pn_connector_process`.
* The occupied lengths of the buffers are `size_t` values: natural numbers, with the
  arithmetic on them reduced modulo `2 ^ 64`; a wider value stored in an `int` is
  reduced to 32 bits (`toInt32`).  The three counts of the driver count nodes and are
  plain natural numbers.
* Code outside the source file (`util.h`, `error.c`, `winsock2.h`, the transport) is
  named where it is modelled.
-/

namespace Proton

/-! ## Constants of the source file -/

/-- The number of slots of an `fd_set` (`#define FD_SETSIZE 2048`). -/
def FD_SETSIZE : Nat := 2048

/-- Read-interest bit of `status` (`#define PN_SEL_RD (0x0001)`). -/
def PN_SEL_RD : Nat := 1

/-- Write-interest bit of `status` (`#define PN_SEL_WR (0x0002)`). -/
def PN_SEL_WR : Nat := 2

/-- Capacity of each connector buffer (`#define IO_BUF_SIZE (64*1024)`). -/
def IO_BUF_SIZE : Nat := 65536

/-- The modulus of `size_t` arithmetic. -/
def SIZE_MOD : Nat := 18446744073709551616

/-- The value of a `size_t` expression whose mathematical value is `x`. -/
def toSize (x : Int) : Nat := (x % (SIZE_MOD : Int)).toNat

/-- Conversion of a wider integer to the 32-bit `int`. -/
def toInt32 (x : Int) : Int := (2147483648 + x) % 4294967296 - 2147483648

/-- The C expression `status & ~mask` on the 32-bit pattern of `status`. -/
def clear_bits (status mask : Nat) : Nat := status &&& (4294967295 ^^^ mask)

/-- The C test `status & bit`. -/
def has_bit (status bit : Nat) : Bool := (status &&& bit) != 0

/-! ## fd_set (winsock2.h) -/

/-- An `fd_set` is the array of the descriptors it holds (`fd_array`, with
`fd_count` its length). -/
abbrev fd_set := List Nat

/-- The macro `FD_ZERO`. -/
def FD_ZERO : fd_set := []

/-- The macro `FD_SET` of winsock2.h: a descriptor already present is not added again, and a
descriptor is added only while `fd_count < FD_SETSIZE`. -/
def FD_SET (fd : Nat) (set : fd_set) : fd_set :=
  if fd ∈ set then set
  else if set.length < FD_SETSIZE then set ++ [fd]
  else set

/-- The macro `FD_ISSET`. -/
def FD_ISSET (fd : Nat) (set : fd_set) : Bool := decide (fd ∈ set)

/-! ## Data model -/

/-- The fields of `struct pn_listener_t` the driver reads or writes.  `id` is the
address of the node; `driver` always points to the owning driver while the node is
alive and is not represented. -/
structure pn_listener_t where
  id : Nat
  pending : Bool
  fd : Nat
deriving DecidableEq, Repr

/-- A byte buffer: the byte at each index. -/
abbrev Buffer := Nat → Nat

/-- The fields of `struct pn_connector_t` the driver reads or writes.  The owned
transport object lives outside the structure; its state is passed alongside. -/
structure pn_connector_t where
  id : Nat
  pending_tick : Bool
  pending_read : Bool
  pending_write : Bool
  fd : Nat
  status : Nat
  closed : Bool
  wakeup : Int
  input_size : Nat
  input : Buffer
  input_eos : Bool
  output_size : Nat
  output : Buffer
  input_done : Bool
  output_done : Bool

/-- The fields of `struct pn_driver_t`.  `error` is the code held by the error slot;
`listeners` and `connectors` are the two linked lists from head to tail. -/
structure pn_driver_t where
  error : Int
  listeners : List pn_listener_t
  listener_next : Option Nat
  connectors : List pn_connector_t
  connector_next : Option Nat
  listener_count : Nat
  connector_count : Nat
  closed_count : Nat
  readfds : fd_set
  writefds : fd_set
  overflow : Bool
  ctrl0 : Nat
  ctrl1 : Nat
  wakeup : Int

/-- The pointer `d->listener_head`. -/
def listener_head (d : pn_driver_t) : Option Nat := (d.listeners.head?).map (fun l => l.id)

/-- The pointer `d->connector_head`. -/
def connector_head (d : pn_driver_t) : Option Nat := (d.connectors.head?).map (fun c => c.id)

/-- The `next` pointer of the node at address `p` in a list of node addresses. -/
def next_of (ids : List Nat) (p : Nat) : Option Nat :=
  ((ids.dropWhile (fun q => q != p)).drop 1).head?

/-! ## util.h helpers -/

/-- Modelled from the spec: `pn_min` of util.h, which is not part of the source
file; the smaller of two values. -/
def pn_min (x y : Int) : Int := if x > y then y else x

/-- Modelled from the spec: `pn_timestamp_min` of util.h, which is not part of the
source file; it merges two deadlines, zero meaning no deadline (the soonest timer). -/
def pn_timestamp_min (a b : Int) : Int :=
  if a ≠ 0 ∧ b ≠ 0 then pn_min a b
  else if a ≠ 0 then a
  else b

/-! ## Build: pn_driver_rebuild -/

/-- The locals of `pn_driver_rebuild` together with the driver fields it writes. -/
structure Rebuild where
  wakeup : Int
  overflow : Bool
  r_avail : Nat
  w_avail : Nat
  readfds : fd_set
  writefds : fd_set
deriving DecidableEq, Repr

/-- The listener loop of `pn_driver_rebuild`: `n` iterations remain and `l` walks the
list.  `none` is the dereference of a null `l`. -/
def rebuild_listeners : Nat → List pn_listener_t → Rebuild → Option Rebuild
  | 0, _, a => some a
  | n + 1, ls, a =>
    if a.r_avail ≠ 0 then
      match ls with
      | [] => none
      | l :: rest =>
        rebuild_listeners n rest
          { a with readfds := FD_SET l.fd a.readfds, r_avail := a.r_avail - 1 }
    else
      some { a with overflow := true }

/-- The connector loop of `pn_driver_rebuild`.  `none` is the dereference of a null
`c`. -/
def rebuild_connectors : Nat → List pn_connector_t → Rebuild → Option Rebuild
  | 0, _, a => some a
  | _ + 1, [], _ => none
  | n + 1, c :: rest, a =>
    if !c.closed then
      let a1 := { a with wakeup := pn_timestamp_min a.wakeup c.wakeup }
      if has_bit c.status PN_SEL_RD && a1.r_avail == 0 then
        some { a1 with overflow := true }
      else
        let a2 :=
          if has_bit c.status PN_SEL_RD then
            { a1 with readfds := FD_SET c.fd a1.readfds, r_avail := a1.r_avail - 1 }
          else a1
        if has_bit c.status PN_SEL_WR && a2.w_avail == 0 then
          some { a2 with overflow := true }
        else
          let a3 :=
            if has_bit c.status PN_SEL_WR then
              { a2 with writefds := FD_SET c.fd a2.writefds, w_avail := a2.w_avail - 1 }
            else a2
          rebuild_connectors n rest a3
    else
      rebuild_connectors n rest a

/-- The state of the locals when the listener loop starts. -/
def rebuild_start (d : pn_driver_t) : Rebuild :=
  { wakeup := 0, overflow := false, r_avail := FD_SETSIZE, w_avail := FD_SETSIZE,
    readfds := FD_SET d.ctrl0 FD_ZERO, writefds := FD_ZERO }

/-- The function `pn_driver_rebuild`. -/
def pn_driver_rebuild (d : pn_driver_t) : Option pn_driver_t :=
  match rebuild_listeners d.listener_count d.listeners (rebuild_start d) with
  | none => none
  | some a =>
    match rebuild_connectors d.connector_count d.connectors a with
    | none => none
    | some b =>
      some { d with wakeup := b.wakeup, overflow := b.overflow,
                    readfds := b.readfds, writefds := b.writefds }

/-- The function `pn_driver_wait_1`. -/
def pn_driver_wait_1 (d : pn_driver_t) : Option pn_driver_t := pn_driver_rebuild d

/-! ## Block: pn_driver_wait_2 -/

/-- The C `struct timeval`. -/
structure timeval where
  tv_sec : Int
  tv_usec : Int
deriving DecidableEq, Repr

/-- What `select` hands back: its return value and the two sets as it left them. -/
structure SelectResult where
  nfds : Int
  readfds : fd_set
  writefds : fd_set

/-- The poll primitive: from the two interest sets and the timeout argument (`none`
is the null pointer, which blocks without limit) to its result. -/
abbrev Select := fd_set → fd_set → Option timeval → SelectResult

/-- The constant `SOCKET_ERROR` of winsock2.h. -/
def SOCKET_ERROR : Int := -1

/-- The outcome of `pn_driver_wait_2`: the driver, the value returned, and the
timeout argument of the `select` call when `select` was called. -/
structure Wait2 where
  d : pn_driver_t
  result : Int
  polled : Option (Option timeval)

/-- The value of the `int` variable `timeout` after the clamp to the wakeup deadline;
`wakeup` and `now` are 64-bit timestamps, so the value assigned is converted to
`int`. -/
def wait_timeout (wakeup now timeout : Int) : Int :=
  if wakeup ≠ 0 then
    if now ≥ wakeup then 0
    else toInt32 (if timeout < 0 then wakeup - now else pn_min timeout (wakeup - now))
  else timeout

/-- The `struct timeval to` built from `timeout`. -/
def wait_timeval (timeout : Int) : timeval :=
  if timeout > 0 then
    { tv_sec := timeout / 1000, tv_usec := (timeout - (timeout / 1000) * 1000) * 1000 }
  else
    { tv_sec := 0, tv_usec := 0 }

/-- Modelled from the spec: `pn_error_set` of error.c, which is not part of the
source file; it records the code in the error slot of the driver and returns the
code (the capacity error of the Block phase). -/
def pn_error_set (d : pn_driver_t) (code : Int) : pn_driver_t × Int :=
  ({ d with error := code }, code)

/-- Modelled from the spec: `pn_error_code` of error.c, which is not part of the
source file; the code held by the error slot. -/
def pn_error_code (d : pn_driver_t) : Int := d.error

/-- Modelled from the spec: `pn_i_error_from_errno` of util.c, which is not part of
the source file; a failure of the poll primitive is recorded in the error slot as a
driver-level error. -/
def pn_i_error_from_errno (PN_ERR : Int) (d : pn_driver_t) : pn_driver_t :=
  { d with error := PN_ERR }

/-- The function `pn_driver_wait_2`.  `PN_ERR` is the error code of proton/error.h
(there `-2`), which is not part of the source file; `now` is the value of
`pn_i_now()`, a 64-bit `pn_timestamp_t` like `d->wakeup`. -/
def pn_driver_wait_2 (PN_ERR : Int) (now : Int) (select : Select) (d : pn_driver_t)
    (timeout : Int) : Wait2 :=
  if d.overflow then
    { d := (pn_error_set d PN_ERR).1, result := (pn_error_set d PN_ERR).2, polled := none }
  else
    let timeout := wait_timeout d.wakeup now timeout
    let tv := wait_timeval timeout
    let arg := if timeout < 0 then none else some tv
    let r := select d.readfds d.writefds arg
    let d1 := { d with readfds := r.readfds, writefds := r.writefds }
    if r.nfds = SOCKET_ERROR then
      { d := pn_i_error_from_errno PN_ERR d1, result := -1, polled := some arg }
    else
      { d := d1, result := 0, polled := some arg }

/-! ## Distribute: pn_driver_wait_3 -/

/-- The function `pn_driver_wait_3`; `now` is the value of `pn_i_now()`.  Draining the wake
channel changes nothing the driver holds. -/
def pn_driver_wait_3 (now : Int) (d : pn_driver_t) : pn_driver_t :=
  let ls := d.listeners.map (fun l => { l with pending := FD_ISSET l.fd d.readfds })
  let cs := d.connectors.map (fun c =>
    if c.closed then
      { c with pending_read := false, pending_write := false, pending_tick := false }
    else
      { c with pending_read := FD_ISSET c.fd d.readfds,
               pending_write := FD_ISSET c.fd d.writefds,
               pending_tick := decide (c.wakeup ≠ 0 ∧ c.wakeup ≤ now) })
  let d1 := { d with listeners := ls, connectors := cs }
  { d1 with listener_next := listener_head d1, connector_next := connector_head d1 }

/-- The outcome of `pn_driver_wait`. -/
structure Wait where
  d : pn_driver_t
  result : Int
  polled : Option (Option timeval)

/-- The function `pn_driver_wait`: the three phases in sequence; `now2` and `now3` are the clock
readings of the second and third phase. -/
def pn_driver_wait (PN_ERR : Int) (now2 : Int) (select : Select) (now3 : Int)
    (d : pn_driver_t) (timeout : Int) : Option Wait :=
  match pn_driver_wait_1 d with
  | none => none
  | some d1 =>
    let w := pn_driver_wait_2 PN_ERR now2 select d1 timeout
    if w.result = -1 then
      some { d := w.d, result := pn_error_code w.d, polled := w.polled }
    else
      some { d := pn_driver_wait_3 now3 w.d, result := 0, polled := w.polled }

/-! ## Registration -/

/-- Modelled from the spec: the macro `LL_ADD` of util.h, which is not part of the
source file; the intrusive list insert, which links the node after the tail. -/
def LL_ADD {α : Type} (list : List α) (node : α) : List α := list ++ [node]

/-- Modelled from the spec: the macro `LL_REMOVE` of util.h, which is not part of the
source file; the intrusive list remove, which unlinks the node at address `p`. -/
def LL_REMOVE {α : Type} (addr : α → Nat) (list : List α) (p : Nat) : List α :=
  list.filter (fun x => addr x != p)

/-- The function `pn_driver_add_listener`; the node's `driver` field is set by the
caller, so the early return is not taken. -/
def pn_driver_add_listener (d : pn_driver_t) (l : pn_listener_t) : pn_driver_t :=
  { d with listeners := LL_ADD d.listeners l, listener_count := d.listener_count + 1 }

/-- The function `pn_driver_remove_listener` for the linked node at address `p`. -/
def pn_driver_remove_listener (d : pn_driver_t) (p : Nat) : pn_driver_t :=
  let d1 :=
    if d.listener_next = some p then
      { d with listener_next := next_of (d.listeners.map (fun l => l.id)) p }
    else d
  { d1 with listeners := LL_REMOVE (fun l => l.id) d1.listeners p,
            listener_count := d1.listener_count - 1 }

/-- The function `pn_listener_fd`; `p` is the address `malloc` returned. -/
def pn_listener_fd (d : pn_driver_t) (p : Nat) (fd : Nat) : pn_driver_t :=
  pn_driver_add_listener d { id := p, pending := false, fd := fd }

/-- The function `pn_listener_free` for the listener at address `p`; a listener that
is alive is linked in its driver. -/
def pn_listener_free (d : pn_driver_t) (p : Nat) : pn_driver_t :=
  if d.listeners.any (fun l => l.id == p) then pn_driver_remove_listener d p else d

/-- The function `pn_driver_add_connector`. -/
def pn_driver_add_connector (d : pn_driver_t) (c : pn_connector_t) : pn_driver_t :=
  { d with connectors := LL_ADD d.connectors c, connector_count := d.connector_count + 1 }

/-- The function `pn_driver_remove_connector` for the linked node `c`. -/
def pn_driver_remove_connector (d : pn_driver_t) (c : pn_connector_t) : pn_driver_t :=
  let d1 :=
    if d.connector_next = some c.id then
      { d with connector_next := next_of (d.connectors.map (fun x => x.id)) c.id }
    else d
  let d2 := { d1 with connectors := LL_REMOVE (fun x => x.id) d1.connectors c.id,
                      connector_count := d1.connector_count - 1 }
  if c.closed then { d2 with closed_count := d2.closed_count - 1 } else d2

/-- The connector `pn_connector_fd` constructs at address `p`; the two buffers are
not initialised by the source and start here as zeroes. -/
def new_connector (p : Nat) (fd : Nat) : pn_connector_t :=
  { id := p, pending_tick := false, pending_read := false, pending_write := false,
    fd := fd, status := PN_SEL_RD ||| PN_SEL_WR, closed := false, wakeup := 0,
    input_size := 0, input := fun _ => 0, input_eos := false,
    output_size := 0, output := fun _ => 0, input_done := false, output_done := false }

/-- The function `pn_connector_fd`; `p` is the address `malloc` returned. -/
def pn_connector_fd (d : pn_driver_t) (p : Nat) (fd : Nat) : pn_driver_t :=
  pn_driver_add_connector d (new_connector p fd)

/-- The function `pn_connector_free` for the connector at address `p`. -/
def pn_connector_free (d : pn_driver_t) (p : Nat) : pn_driver_t :=
  match d.connectors.find? (fun c => c.id == p) with
  | some c => pn_driver_remove_connector d c
  | none => d

/-- The function `pn_driver`: the freshly constructed driver with its wake channel.
The two sets and the overflow flag are first written by `pn_driver_rebuild`. -/
def pn_driver (ctrl0 ctrl1 : Nat) : pn_driver_t :=
  { error := 0, listeners := [], listener_next := none, connectors := [],
    connector_next := none, listener_count := 0, connector_count := 0, closed_count := 0,
    readfds := [], writefds := [], overflow := false, ctrl0 := ctrl0, ctrl1 := ctrl1,
    wakeup := 0 }

/-! ## Fairness cursors -/

/-- The loop of `pn_driver_listener` from the node the cursor targets: the new
cursor and the listener returned. -/
def listener_scan : List pn_listener_t → Option Nat × Option Nat
  | [] => (none, none)
  | l :: rest =>
    if l.pending then ((rest.head?).map (fun x => x.id), some l.id)
    else listener_scan rest

/-- The function `pn_driver_listener`. -/
def pn_driver_listener (d : pn_driver_t) : pn_driver_t × Option Nat :=
  match d.listener_next with
  | none => (d, none)
  | some p =>
    let r := listener_scan (d.listeners.dropWhile (fun l => l.id != p))
    ({ d with listener_next := r.1 }, r.2)

/-- The test of `pn_driver_connector`: the connector has outstanding work. -/
def connector_ready (c : pn_connector_t) : Bool :=
  c.closed || c.pending_read || c.pending_write || c.pending_tick ||
    (c.input_size != 0) || c.input_eos

/-- The loop of `pn_driver_connector` from the node the cursor targets: the new
cursor and the connector returned. -/
def connector_scan : List pn_connector_t → Option Nat × Option Nat
  | [] => (none, none)
  | c :: rest =>
    if connector_ready c then ((rest.head?).map (fun x => x.id), some c.id)
    else connector_scan rest

/-- The function `pn_driver_connector`. -/
def pn_driver_connector (d : pn_driver_t) : pn_driver_t × Option Nat :=
  match d.connector_next with
  | none => (d, none)
  | some p =>
    let r := connector_scan (d.connectors.dropWhile (fun c => c.id != p))
    ({ d with connector_next := r.1 }, r.2)

/-! ## Connector: socket and transport exchange -/

/-- What `recv` did: its return value, whether `errno` is `EAGAIN`, and the bytes it
stored at the address it was given. -/
structure RecvResult where
  n : Int
  eagain : Bool
  data : List Nat

/-- What `send` did: its return value and whether `errno` is `EAGAIN`. -/
structure SendResult where
  n : Int
  eagain : Bool

/-- What `pn_transport_output` did: its return value and the bytes it stored at the
address it was given. -/
structure DrainResult where
  n : Int
  data : List Nat

/-- The transport collaborator as a state machine over its own state `σ`:
`pn_transport_input(t, bytes, size)`, `pn_transport_output(t, bytes, size)` and
`pn_transport_tick(t, now)`. -/
structure Transport (σ : Type) where
  input : σ → Buffer → Nat → Int × σ
  output : σ → Nat → DrainResult × σ
  tick : σ → Int → Int × σ

/-- Storing `data` into `buf` from index `off` on. -/
def blit (buf : Buffer) (off : Nat) (data : List Nat) : Buffer :=
  fun i => if off ≤ i ∧ i < off + data.length then data.getD (i - off) 0 else buf i

/-- The call `memmove(buf, buf + n, len)`. -/
def memmove (buf : Buffer) (n : Int) (len : Nat) : Buffer :=
  fun i => if i < len then buf ((i : Int) + n).toNat else buf i

/-- The first `size` bytes of a buffer. -/
def content (buf : Buffer) (size : Nat) : List Nat := (List.range size).map buf

/-- The function `pn_connector_read`; `recv` maps the length offered to the outcome
of the call. -/
def pn_connector_read (recv : Nat → RecvResult) (ctor : pn_connector_t) : pn_connector_t :=
  let r := recv (toSize ((IO_BUF_SIZE : Int) - ctor.input_size))
  let c1 := { ctor with input := blit ctor.input ctor.input_size r.data }
  if r.n < 0 then
    if !r.eagain then
      { c1 with status := clear_bits c1.status PN_SEL_RD, input_eos := true }
    else c1
  else if r.n = 0 then
    { c1 with status := clear_bits c1.status PN_SEL_RD, input_eos := true }
  else
    { c1 with input_size := toSize ((c1.input_size : Int) + r.n) }

/-- The function `pn_connector_consume`; `n` is its `int` argument. -/
def pn_connector_consume (ctor : pn_connector_t) (n : Int) : pn_connector_t :=
  let size := toSize ((ctor.input_size : Int) - n)
  { ctor with input_size := size, input := memmove ctor.input n size }

/-- The function `pn_connector_process_input`. -/
def pn_connector_process_input {σ : Type} (T : Transport σ) (ctor : pn_connector_t) (t : σ) :
    pn_connector_t × σ :=
  if !ctor.input_done then
    if ctor.input_size > 0 || ctor.input_eos then
      let r := T.input t ctor.input ctor.input_size
      if r.1 ≥ 0 then
        (pn_connector_consume ctor (toInt32 r.1), r.2)
      else
        ({ pn_connector_consume ctor (toInt32 ctor.input_size) with input_done := true }, r.2)
    else (ctor, t)
  else (ctor, t)

/-- The function `pn_connector_available`. -/
def pn_connector_available (ctor : pn_connector_t) : Nat :=
  toSize ((IO_BUF_SIZE : Int) - ctor.output_size)

/-- The function `pn_connector_process_output`; the transport writes at
`pn_connector_output(ctor)`, the end of the buffered output. -/
def pn_connector_process_output {σ : Type} (T : Transport σ) (ctor : pn_connector_t) (t : σ) :
    pn_connector_t × σ :=
  let r :=
    if !ctor.output_done then
      let o := T.output t (pn_connector_available ctor)
      let c1 := { ctor with output := blit ctor.output ctor.output_size o.1.data }
      if o.1.n ≥ 0 then
        ({ c1 with output_size := toSize ((c1.output_size : Int) + o.1.n) }, o.2)
      else
        ({ c1 with output_done := true }, o.2)
    else (ctor, t)
  if r.1.output_size != 0 then
    ({ r.1 with status := r.1.status ||| PN_SEL_WR }, r.2)
  else r

/-- The criteria of `pn_activate_criteria_t`. -/
inductive pn_activate_criteria_t where
  | PN_CONNECTOR_WRITABLE
  | PN_CONNECTOR_READABLE
deriving DecidableEq, Repr

/-- The function `pn_connector_activate`. -/
def pn_connector_activate (ctor : pn_connector_t) (crit : pn_activate_criteria_t) :
    pn_connector_t :=
  match crit with
  | .PN_CONNECTOR_WRITABLE => { ctor with status := ctor.status ||| PN_SEL_WR }
  | .PN_CONNECTOR_READABLE => { ctor with status := ctor.status ||| PN_SEL_RD }

/-- The function `pn_connector_activated`: the connector afterwards and the value
returned. -/
def pn_connector_activated (ctor : pn_connector_t) (crit : pn_activate_criteria_t) :
    pn_connector_t × Bool :=
  match crit with
  | .PN_CONNECTOR_WRITABLE =>
    ({ ctor with pending_write := false, status := clear_bits ctor.status PN_SEL_WR },
      ctor.pending_write)
  | .PN_CONNECTOR_READABLE =>
    ({ ctor with pending_read := false, status := clear_bits ctor.status PN_SEL_RD },
      ctor.pending_read)

/-- The function `pn_connector_write`; `send` maps the bytes offered (buffer and
length) to the outcome of the call. -/
def pn_connector_write (send : Buffer → Nat → SendResult) (ctor : pn_connector_t) :
    pn_connector_t :=
  let c1 :=
    if ctor.output_size > 0 then
      let r := send ctor.output ctor.output_size
      if r.n < 0 then
        if !r.eagain then { ctor with output_size := 0, output_done := true }
        else ctor
      else
        let size := toSize ((ctor.output_size : Int) - r.n)
        { ctor with output_size := size, output := memmove ctor.output r.n size }
    else ctor
  if c1.output_size == 0 then { c1 with status := clear_bits c1.status PN_SEL_WR }
  else c1

/-- The function `pn_connector_tick`: the deadline the transport answers. -/
def pn_connector_tick {σ : Type} (T : Transport σ) (t : σ) (now : Int) : Int × σ :=
  T.tick t now

/-- The function `pn_connector_close`; `d` is `ctor->driver`. -/
def pn_connector_close (d : pn_driver_t) (ctor : pn_connector_t) :
    pn_driver_t × pn_connector_t :=
  ({ d with closed_count := d.closed_count + 1 }, { ctor with status := 0, closed := true })

/-- The first statement of `pn_connector_process`: the read when `pending_read` is
set.  `c->read` is `pn_connector_read`, as set at construction. -/
def process_read (recv : Nat → RecvResult) (c : pn_connector_t) : pn_connector_t :=
  if c.pending_read then { pn_connector_read recv c with pending_read := false }
  else c

/-- The statement `c->wakeup = pn_connector_tick(c, pn_i_now())`. -/
def process_tick {σ : Type} (T : Transport σ) (now : Int) (r : pn_connector_t × σ) :
    pn_connector_t × σ :=
  ({ r.1 with wakeup := (pn_connector_tick T r.2 now).1 }, (pn_connector_tick T r.2 now).2)

/-- The send of `pn_connector_process` when `pending_write` is set, followed by the
second drain.  `c->write` is `pn_connector_write`, as set at construction. -/
def process_write {σ : Type} (T : Transport σ) (send : Buffer → Nat → SendResult)
    (r : pn_connector_t × σ) : pn_connector_t × σ :=
  if r.1.pending_write then
    pn_connector_process_output T { pn_connector_write send r.1 with pending_write := false } r.2
  else r

/-- The read, feed, tick, drain and send steps of `pn_connector_process`, up to the
test for the automatic close. -/
def process_steps {σ : Type} (T : Transport σ) (recv : Nat → RecvResult)
    (send : Buffer → Nat → SendResult) (now : Int) (c : pn_connector_t) (t : σ) :
    pn_connector_t × σ :=
  let r2 := pn_connector_process_input T (process_read recv c) t
  let r3 := process_tick T now r2
  let r4 := pn_connector_process_output T r3.1 r3.2
  process_write T send r4

/-- The test of `pn_connector_process` for the automatic close. -/
def close_due (c : pn_connector_t) : Bool :=
  c.output_size == 0 && c.input_done && c.output_done

/-- The function `pn_connector_process` on a connector `c`, its driver `d` and the
state `t` of its transport. -/
def pn_connector_process {σ : Type} (T : Transport σ) (recv : Nat → RecvResult)
    (send : Buffer → Nat → SendResult) (now : Int) (d : pn_driver_t) (c : pn_connector_t)
    (t : σ) : pn_driver_t × pn_connector_t × σ :=
  if c.closed then (d, c, t)
  else
    let r := process_steps T recv send now c t
    if close_due r.1 then
      let k := pn_connector_close d r.1
      (k.1, k.2, r.2)
    else (d, r.1, r.2)

/-! ## Vocabulary of the properties -/

/-- The descriptors `pn_driver_rebuild` is to place in the read-interest set: the
wake-channel read side, every listener, every connector that is not closed and has
read interest. -/
def read_interest (d : pn_driver_t) : List Nat :=
  d.ctrl0 :: (d.listeners.map (fun l => l.fd) ++
    (d.connectors.filter (fun c => !c.closed && has_bit c.status PN_SEL_RD)).map (fun c => c.fd))

/-- The descriptors `pn_driver_rebuild` is to place in the write-interest set: every
connector that is not closed and has write interest. -/
def write_interest (d : pn_driver_t) : List Nat :=
  (d.connectors.filter (fun c => !c.closed && has_bit c.status PN_SEL_WR)).map (fun c => c.fd)

/-- A driver with wake channel `0` and `n` registered listeners, at addresses
`0 .. n - 1` with descriptors `1 .. n`, and no connector. -/
def listeners_driver (n : Nat) : pn_driver_t :=
  { pn_driver 0 (n + 1) with
    listeners := (List.range n).map (fun i => { id := i, pending := false, fd := i + 1 }),
    listener_count := n }

/-- A `select` that reports no descriptor ready and no error. -/
def quiet_select : Select := fun _ _ _ => { nfds := 0, readfds := [], writefds := [] }

/-- A driver after a Build that found no overflow and merged the wakeup deadline
`wakeup`. -/
def deadline_driver (wakeup : Int) : pn_driver_t :=
  { pn_driver 3 4 with readfds := [3], wakeup := wakeup }

/-- One call on the driver: a registration, an unregistration, a Distribute (with the
sets `select` returned) or a cursor retrieval. -/
inductive DriverOp where
  | listener_fd (p fd : Nat)
  | listener_free (p : Nat)
  | connector_fd (p fd : Nat)
  | connector_free (p : Nat)
  | wait_3 (now : Int) (readfds writefds : fd_set)
  | driver_listener
  | driver_connector

/-- The driver after one call. -/
def step (d : pn_driver_t) : DriverOp → pn_driver_t
  | .listener_fd p fd => pn_listener_fd d p fd
  | .listener_free p => pn_listener_free d p
  | .connector_fd p fd => pn_connector_fd d p fd
  | .connector_free p => pn_connector_free d p
  | .wait_3 now r w => pn_driver_wait_3 now { d with readfds := r, writefds := w }
  | .driver_listener => (pn_driver_listener d).1
  | .driver_connector => (pn_driver_connector d).1

/-- The driver after a sequence of calls. -/
def run (d : pn_driver_t) : List DriverOp → pn_driver_t
  | [] => d
  | op :: rest => run (step d op) rest

/-- The address `malloc` returns for a new node is not the address of a node that is
still linked. -/
def op_ok (d : pn_driver_t) : DriverOp → Bool
  | .listener_fd p _ => !(d.listeners.any (fun l => l.id == p))
  | .connector_fd p _ => !(d.connectors.any (fun c => c.id == p))
  | _ => true

/-- Every allocation of a sequence of calls returns a fresh address. -/
def run_ok (d : pn_driver_t) : List DriverOp → Bool
  | [] => true
  | op :: rest => op_ok d op && run_ok (step d op) rest

/-- A cursor is null or the address of a node linked in its list. -/
def cursor_linked (d : pn_driver_t) : Prop :=
  (∀ p, d.listener_next = some p → p ∈ d.listeners.map (fun l => l.id)) ∧
  (∀ p, d.connector_next = some p → p ∈ d.connectors.map (fun c => c.id))

/-- The driver after `k` successive calls of `pn_driver_listener`. -/
def after_listener_calls : Nat → pn_driver_t → pn_driver_t
  | 0, d => d
  | k + 1, d => after_listener_calls k (pn_driver_listener d).1

/-- The driver after `k` successive calls of `pn_driver_connector`. -/
def after_connector_calls : Nat → pn_driver_t → pn_driver_t
  | 0, d => d
  | k + 1, d => after_connector_calls k (pn_driver_connector d).1

/-- A transport stub that echoes: its state is the bytes fed and not yet drained;
the feed consumes all the bytes supplied, the drain emits the consumed bytes in
order, up to the capacity offered, and it has no timer. -/
def echo_stub : Transport (List Nat) where
  input := fun pending buf size => ((size : Int), pending ++ content buf size)
  output := fun pending cap =>
    ({ n := ((min pending.length cap : Nat) : Int), data := pending.take cap }, pending.drop cap)
  tick := fun pending _ => (0, pending)

/-- A transport stub that has finished: every feed and every drain answers with a
negative result. -/
def finished_stub : Transport Unit where
  input := fun _ _ _ => (-1, ())
  output := fun _ _ => ({ n := -1, data := [] }, ())
  tick := fun _ _ => (0, ())

/-- A `recv` that finds the peer closed: zero bytes. -/
def recv_eof : Nat → RecvResult := fun _ => { n := 0, eagain := false, data := [] }

/-- A `recv` that would block. -/
def recv_none : Nat → RecvResult := fun _ => { n := -1, eagain := true, data := [] }

/-- A `send` that would block. -/
def send_none : Buffer → Nat → SendResult := fun _ _ => { n := -1, eagain := true }

/-- A `send` that takes `k` bytes. -/
def send_some (k : Nat) : Buffer → Nat → SendResult := fun _ _ => { n := k, eagain := false }

/-- A buffer that starts with the given bytes. -/
def buffer_of (bytes : List Nat) : Buffer := fun i => bytes.getD i 0

/-- The addresses of each list are distinct and both cursors are linked. -/
structure Linked (d : pn_driver_t) : Prop where
  listeners_nodup : (d.listeners.map (fun l => l.id)).Nodup
  connectors_nodup : (d.connectors.map (fun c => c.id)).Nodup
  cursors : cursor_linked d

/-- A sequence of calls: two listeners and two connectors are registered, a
Distribute resets the cursors, and the nodes the cursors then target are freed. -/
def sample_calls : List DriverOp :=
  [.listener_fd 10 5, .listener_fd 11 6, .connector_fd 20 7, .connector_fd 21 8,
   .wait_3 0 [5, 6, 7] [8], .listener_free 10, .connector_free 20, .driver_listener,
   .driver_connector]

/-- A driver with two listeners and two connectors after a `select` that returned
the second listener and the second connector readable. -/
def sample_driver : pn_driver_t :=
  { run (pn_driver 3 4)
      [.listener_fd 10 5, .listener_fd 11 6, .connector_fd 20 7, .connector_fd 21 8] with
    readfds := [6, 8], writefds := [] }

/-- A connector whose output buffer holds the five bytes `1 .. 5`. -/
def buffered_connector : pn_connector_t :=
  { new_connector 20 7 with output_size := 5, output := buffer_of [1, 2, 3, 4, 5] }

/-- A connector whose input buffer holds the three bytes `1, 2, 3`. -/
def fed_connector : pn_connector_t :=
  { new_connector 20 7 with input_size := 3, input := buffer_of [1, 2, 3] }

/-- A connector that is not closed, whose input is permanently finished
(`input_done`) and whose input buffer holds the three bytes `1, 2, 3`. -/
def stalled_connector : pn_connector_t :=
  { new_connector 20 7 with input_size := 3, input := buffer_of [1, 2, 3], input_done := true }

/-- A connector that is not closed, whose output is permanently finished
(`output_done`) and whose input buffer holds the three bytes `1, 2, 3`. -/
def muted_connector : pn_connector_t :=
  { new_connector 20 7 with input_size := 3, input := buffer_of [1, 2, 3], output_done := true }

/-- A fresh connector the last Distribute found readable. -/
def readable_connector : pn_connector_t :=
  { new_connector 20 7 with pending_read := true }

/-- A connector the last Distribute found readable and that `pn_connector_close` has
closed since. -/
def closed_readable_connector : pn_connector_t :=
  (pn_connector_close (pn_driver 3 4) readable_connector).2

/-! ## Vocabulary of the later properties -/

/-- The registered descriptors of a driver: the wake-channel read side, the
descriptor of every listener and the descriptor of every connector. -/
def descriptors (d : pn_driver_t) : List Nat :=
  d.ctrl0 :: (d.listeners.map (fun l => l.fd) ++ d.connectors.map (fun c => c.fd))

/-- A driver with wake channel `0`, `n` registered listeners with descriptors
`1 .. n`, and one freshly constructed connector at address `n` with descriptor
`n + 2`. -/
def listeners_connector_driver (n : Nat) : pn_driver_t :=
  { listeners_driver n with connectors := [new_connector n (n + 2)], connector_count := 1 }

/-- The connector at address `p` of a driver. -/
def connector_at (d : pn_driver_t) (p : Nat) : Option pn_connector_t :=
  d.connectors.find? (fun c => c.id == p)

/-- Writing the connector `c` back through its address. -/
def store_connector (d : pn_driver_t) (c : pn_connector_t) : pn_driver_t :=
  { d with connectors := d.connectors.map (fun x => if x.id == c.id then c else x) }

/-- One call on the connectors of a driver: a creation, a `pn_connector_process` (with
the outcomes of its `recv` and `send`, the clock and the state of the transport of
that connector), an explicit `pn_connector_close`, a `pn_connector_free`, or a
Distribute between them (with the sets `select` returned). -/
inductive ConnectorOp (σ : Type) where
  | connector_fd (p fd : Nat)
  | process (p : Nat) (recv : Nat → RecvResult) (send : Buffer → Nat → SendResult)
      (now : Int) (t : σ)
  | close (p : Nat)
  | free (p : Nat)
  | wait_3 (now : Int) (readfds writefds : fd_set)

/-- The driver after one call on its connectors. -/
def connector_step {σ : Type} (T : Transport σ) (d : pn_driver_t) :
    ConnectorOp σ → pn_driver_t
  | .connector_fd p fd => pn_connector_fd d p fd
  | .process p recv send now t =>
    match connector_at d p with
    | some c =>
      store_connector (pn_connector_process T recv send now d c t).1
        (pn_connector_process T recv send now d c t).2.1
    | none => d
  | .close p =>
    match connector_at d p with
    | some c => store_connector (pn_connector_close d c).1 (pn_connector_close d c).2
    | none => d
  | .free p => pn_connector_free d p
  | .wait_3 now r w => pn_driver_wait_3 now { d with readfds := r, writefds := w }

/-- The driver after a sequence of calls on its connectors. -/
def connector_run {σ : Type} (T : Transport σ) (d : pn_driver_t) :
    List (ConnectorOp σ) → pn_driver_t
  | [] => d
  | op :: rest => connector_run T (connector_step T d op) rest

/-- The number of connectors linked in the driver whose `closed` flag is set. -/
def closed_connectors (d : pn_driver_t) : Nat :=
  (d.connectors.filter (fun c => c.closed)).length

/-- A call is regular when a creation gets an address not in use by a linked
connector and an explicit close is made on a connector that is not closed yet. -/
def connector_op_ok {σ : Type} (d : pn_driver_t) : ConnectorOp σ → Bool
  | .connector_fd p _ => !(d.connectors.any (fun c => c.id == p))
  | .close p =>
    match connector_at d p with
    | some c => !c.closed
    | none => true
  | _ => true

/-- Every call of a sequence is regular. -/
def connector_run_ok {σ : Type} (T : Transport σ) (d : pn_driver_t) :
    List (ConnectorOp σ) → Bool
  | [] => true
  | op :: rest => connector_op_ok d op && connector_run_ok T (connector_step T d op) rest

/-- The closed count tells the closed connectors, and their addresses are distinct. -/
structure Counted (d : pn_driver_t) : Prop where
  nodup : (d.connectors.map (fun c => c.id)).Nodup
  count : d.closed_count = closed_connectors d

/-- One call of `pn_connector_process` as the reactor loop makes it: the outcomes of
`recv` and `send`, the clock, and the pending flags the last Distribute (or an
activation) has left on the connector. -/
structure ProcessCall where
  recv : Nat → RecvResult
  send : Buffer → Nat → SendResult
  now : Int
  pending_read : Bool
  pending_write : Bool
  pending_tick : Bool

/-- The receive returns at most the capacity offered and the send reports at most the
bytes given. -/
def call_ok (k : ProcessCall) : Prop :=
  (∀ cap, (k.recv cap).n ≤ (cap : Int)) ∧ (∀ buf len, (k.send buf len).n ≤ (len : Int))

/-- The feed reports at most the bytes supplied and the drain reports at most the
capacity offered. -/
def transport_ok {σ : Type} (T : Transport σ) : Prop :=
  (∀ s buf size, (T.input s buf size).1 ≤ (size : Int)) ∧
    (∀ s cap, (T.output s cap).1.n ≤ (cap : Int))

/-- The driver, connector and transport state after one call. -/
def process_call {σ : Type} (T : Transport σ) (s : pn_driver_t × pn_connector_t × σ)
    (k : ProcessCall) : pn_driver_t × pn_connector_t × σ :=
  pn_connector_process T k.recv k.send k.now s.1
    { s.2.1 with pending_read := k.pending_read, pending_write := k.pending_write,
                 pending_tick := k.pending_tick } s.2.2

/-- The driver, connector and transport state after a sequence of calls. -/
def process_calls {σ : Type} (T : Transport σ) (s : pn_driver_t × pn_connector_t × σ) :
    List ProcessCall → pn_driver_t × pn_connector_t × σ
  | [] => s
  | k :: rest => process_calls T (process_call T s k) rest

/-- Both occupied lengths are within the capacity of the buffers. -/
def sizes_ok (c : pn_connector_t) : Prop :=
  c.input_size ≤ IO_BUF_SIZE ∧ c.output_size ≤ IO_BUF_SIZE

/-- A `recv` that delivers the bytes `7, 8, 9`, as far as the capacity offered
allows. -/
def recv_three : Nat → RecvResult :=
  fun cap => { n := ((min 3 cap : Nat) : Int), eagain := false, data := [7, 8, 9].take cap }

/-- A `send` that takes one byte when at least one is offered. -/
def send_one : Buffer → Nat → SendResult :=
  fun _ len => { n := ((min 1 len : Nat) : Int), eagain := false }

/-- Two calls of `pn_connector_process`: the first finds the connector readable and
writable, the second finds it writable. -/
def sample_process_calls : List ProcessCall :=
  [{ recv := recv_three, send := send_one, now := 0, pending_read := true,
     pending_write := true, pending_tick := false },
   { recv := recv_none, send := send_one, now := 1, pending_read := false,
     pending_write := true, pending_tick := false }]

/-- A connector is created and closed twice by explicit `pn_connector_close` calls. -/
def double_close_calls : List (ConnectorOp Unit) :=
  [.connector_fd 20 7, .close 20, .close 20]

/-- A connector is created, found readable by a Distribute, closed by
`pn_connector_process` when its peer has closed and its transport has finished, and
then closed again by an explicit `pn_connector_close`. -/
def close_after_process_calls : List (ConnectorOp Unit) :=
  [.connector_fd 20 7, .wait_3 0 [7] [], .process 20 recv_eof send_none 0 (), .close 20]

/-- Two connectors are created; one is closed explicitly, the other by
`pn_connector_process`; the first is freed. -/
def sample_connector_calls : List (ConnectorOp Unit) :=
  [.connector_fd 20 7, .connector_fd 21 8, .close 20, .wait_3 0 [8] [],
   .process 21 recv_eof send_none 0 (), .process 20 recv_eof send_none 0 (), .free 20]

/-- A driver with two listeners and eight connectors as a `select` has left it: the
second listener and the second connector are readable and the last connector is
writable; the third connector has been closed by `pn_connector_close`, the fourth has
seen end-of-input, the fifth holds three unconsumed input bytes, the seventh has a
timer deadline at 5; the first and the sixth have nothing outstanding. -/
def busy_driver : pn_driver_t :=
  { pn_driver 3 4 with
    listeners := [{ id := 10, pending := false, fd := 5 }, { id := 11, pending := false, fd := 6 }],
    listener_count := 2,
    connectors :=
      [new_connector 20 7, new_connector 21 8,
       (pn_connector_close (pn_driver 3 4) (new_connector 22 9)).2,
       { new_connector 23 12 with input_eos := true, status := PN_SEL_WR },
       { new_connector 24 13 with input_size := 3, input := buffer_of [1, 2, 3] },
       new_connector 25 14,
       { new_connector 26 15 with wakeup := 5 },
       new_connector 27 16],
    connector_count := 8,
    closed_count := 1,
    readfds := [6, 8],
    writefds := [16] }

/-- A transport stub that finishes once: its state counts its answers; the feed
answers with a negative result in state 0 only and the drain in state 1 only, and in
every other state both answer 0. -/
def closing_stub : Transport Nat where
  input := fun s _ _ => if s = 0 then (-1, 1) else (0, s)
  output := fun s _ =>
    if s = 1 then ({ n := -1, data := [] }, 2) else ({ n := 0, data := [] }, s)
  tick := fun s _ => (0, s)

/-! ## Build and Block: capacity -/

theorem rebuild_listeners_overflow (ls : List pn_listener_t) :
    ∀ a : Rebuild, a.r_avail < ls.length →
      ∃ b, rebuild_listeners ls.length ls a = some b ∧ b.overflow = true := by
  induction ls with
  | nil => intro a h; simp at h
  | cons l rest ih =>
    intro a h
    by_cases hr : a.r_avail = 0
    · exact ⟨{ a with overflow := true }, by simp [rebuild_listeners, hr], rfl⟩
    · have hlt : a.r_avail - 1 < rest.length := by
        simp only [List.length_cons] at h
        omega
      obtain ⟨b, hb, ho⟩ :=
        ih { a with readfds := FD_SET l.fd a.readfds, r_avail := a.r_avail - 1 } hlt
      exact ⟨b, by simp [rebuild_listeners, hr, hb], ho⟩

theorem rebuild_listeners_fit (ls : List pn_listener_t) :
    ∀ a : Rebuild, ls.length ≤ a.r_avail →
      rebuild_listeners ls.length ls a =
        some { a with readfds := ls.foldl (fun s l => FD_SET l.fd s) a.readfds,
                      r_avail := a.r_avail - ls.length } := by
  induction ls with
  | nil => intro a _; simp [rebuild_listeners]
  | cons l rest ih =>
    intro a h
    simp only [List.length_cons] at h
    have hr : a.r_avail ≠ 0 := by omega
    have hle : rest.length ≤ a.r_avail - 1 := by omega
    have := ih { a with readfds := FD_SET l.fd a.readfds, r_avail := a.r_avail - 1 } hle
    simp only [List.length_cons, rebuild_listeners, hr, ne_eq, not_false_eq_true, if_true,
      this, List.foldl_cons]
    congr 2
    omega

theorem FD_SET_foldl_fresh (fs : List Nat) :
    ∀ s : fd_set, fs.Nodup → (∀ x ∈ fs, x ∉ s) → s.length ≤ FD_SETSIZE →
      fs.foldl (fun s x => FD_SET x s) s = s ++ fs.take (FD_SETSIZE - s.length) := by
  induction fs with
  | nil => intro s _ _ _; simp
  | cons f rest ih =>
    intro s hn hd hl
    have hf : f ∉ s := hd f (List.mem_cons_self _ _)
    have hn2 : rest.Nodup := (List.nodup_cons.mp hn).2
    have hfr : f ∉ rest := (List.nodup_cons.mp hn).1
    by_cases hlt : s.length < FD_SETSIZE
    · have hstep : FD_SET f s = s ++ [f] := by simp [FD_SET, hf, hlt]
      have hd2 : ∀ x ∈ rest, x ∉ s ++ [f] := by
        intro x hx hmem
        rcases List.mem_append.mp hmem with h1 | h1
        · exact hd x (List.mem_cons_of_mem _ hx) h1
        · simp at h1
          exact hfr (h1 ▸ hx)
      have hl2 : (s ++ [f]).length ≤ FD_SETSIZE := by simp; omega
      rw [List.foldl_cons, hstep, ih (s ++ [f]) hn2 hd2 hl2]
      have hk : FD_SETSIZE - s.length = (FD_SETSIZE - (s ++ [f]).length) + 1 := by
        simp; omega
      rw [hk, List.take_succ_cons]
      simp
    · have hstep : FD_SET f s = s := by simp [FD_SET, hf, hlt]
      have hz : FD_SETSIZE - s.length = 0 := by omega
      have hd2 : ∀ x ∈ rest, x ∉ s := fun x hx => hd x (List.mem_cons_of_mem _ hx)
      rw [List.foldl_cons, hstep, ih s hn2 hd2 hl, hz]
      simp

theorem rebuild_listeners_count (ls : List pn_listener_t) :
    ∀ a b : Rebuild, rebuild_listeners ls.length ls a = some b → b.overflow = false →
      b.r_avail + ls.length = a.r_avail ∧ b.w_avail = a.w_avail ∧ a.overflow = false := by
  induction ls with
  | nil =>
    intro a b h ho
    simp only [List.length_nil, rebuild_listeners, Option.some.injEq] at h
    subst h
    exact ⟨rfl, rfl, ho⟩
  | cons l rest ih =>
    intro a b h ho
    by_cases hr : a.r_avail = 0
    · simp only [List.length_cons, rebuild_listeners, hr, ne_eq, not_true_eq_false, if_false,
        Option.some.injEq] at h
      subst h
      simp at ho
    · simp only [List.length_cons, rebuild_listeners, hr, ne_eq, not_false_eq_true,
        if_true] at h
      obtain ⟨h1, h2, h3⟩ := ih _ b h ho
      simp only at h1 h2 h3
      refine ⟨?_, h2, h3⟩
      simp only [List.length_cons]
      omega

theorem rebuild_connectors_count (cs : List pn_connector_t) :
    ∀ a b : Rebuild, rebuild_connectors cs.length cs a = some b → b.overflow = false →
      b.r_avail + (cs.filter (fun c => !c.closed && has_bit c.status PN_SEL_RD)).length
          = a.r_avail ∧
        b.w_avail + (cs.filter (fun c => !c.closed && has_bit c.status PN_SEL_WR)).length
          = a.w_avail ∧ a.overflow = false := by
  induction cs with
  | nil =>
    intro a b h ho
    simp only [List.length_nil, rebuild_connectors, Option.some.injEq] at h
    subst h
    exact ⟨rfl, rfl, ho⟩
  | cons c rest ih =>
    intro a b h ho
    simp only [List.length_cons, rebuild_connectors] at h
    by_cases hc : c.closed = true
    · simp only [hc, Bool.not_true, Bool.false_eq_true, if_false] at h
      obtain ⟨h1, h2, h3⟩ := ih a b h ho
      simp only [List.filter_cons, hc, Bool.not_true, Bool.false_and, Bool.false_eq_true,
        if_false]
      exact ⟨h1, h2, h3⟩
    · have hc2 : c.closed = false := by simpa using hc
      simp only [hc2, Bool.not_false, if_true] at h
      by_cases hrd : has_bit c.status PN_SEL_RD = true
      · by_cases hr0 : a.r_avail = 0
        · simp only [hrd, hr0, beq_self_eq_true, Bool.and_self, if_true,
            Option.some.injEq] at h
          subst h
          simp at ho
        · have hr0' : (a.r_avail == 0) = false := by simpa using hr0
          simp only [hrd, hr0', Bool.and_false, Bool.false_eq_true, if_false, if_true] at h
          by_cases hwr : has_bit c.status PN_SEL_WR = true
          · by_cases hw0 : a.w_avail = 0
            · simp only [hwr, hw0, beq_self_eq_true, Bool.and_self, if_true,
                Option.some.injEq] at h
              subst h
              simp at ho
            · have hw0' : (a.w_avail == 0) = false := by simpa using hw0
              simp only [hwr, hw0', Bool.and_false, Bool.false_eq_true, if_false, if_true] at h
              obtain ⟨h1, h2, h3⟩ := ih _ b h ho
              simp only at h1 h2 h3
              simp only [List.filter_cons, hc2, hrd, hwr, Bool.not_false, Bool.and_self,
                if_true, List.length_cons]
              exact ⟨by omega, by omega, h3⟩
          · have hwr' : has_bit c.status PN_SEL_WR = false := by simpa using hwr
            simp only [hwr', Bool.false_and, Bool.false_eq_true, if_false] at h
            obtain ⟨h1, h2, h3⟩ := ih _ b h ho
            simp only at h1 h2 h3
            simp only [List.filter_cons, hc2, hrd, hwr', Bool.not_false, Bool.and_self,
              Bool.and_false, Bool.false_eq_true, if_true, if_false, List.length_cons]
            exact ⟨by omega, by omega, h3⟩
      · have hrd' : has_bit c.status PN_SEL_RD = false := by simpa using hrd
        simp only [hrd', Bool.false_and, Bool.false_eq_true, if_false] at h
        by_cases hwr : has_bit c.status PN_SEL_WR = true
        · by_cases hw0 : a.w_avail = 0
          · simp only [hwr, hw0, beq_self_eq_true, Bool.and_self, if_true,
              Option.some.injEq] at h
            subst h
            simp at ho
          · have hw0' : (a.w_avail == 0) = false := by simpa using hw0
            simp only [hwr, hw0', Bool.and_false, Bool.false_eq_true, if_false, if_true] at h
            obtain ⟨h1, h2, h3⟩ := ih _ b h ho
            simp only at h1 h2 h3
            simp only [List.filter_cons, hc2, hrd', hwr, Bool.not_false, Bool.and_self,
              Bool.and_false, Bool.false_eq_true, if_true, if_false, List.length_cons]
            exact ⟨by omega, by omega, h3⟩
        · have hwr' : has_bit c.status PN_SEL_WR = false := by simpa using hwr
          simp only [hwr', Bool.false_and, Bool.false_eq_true, if_false] at h
          obtain ⟨h1, h2, h3⟩ := ih _ b h ho
          simp only at h1 h2 h3
          simp only [List.filter_cons, hc2, hrd', hwr', Bool.not_false, Bool.and_false,
            Bool.false_eq_true, if_false]
          exact ⟨h1, h2, h3⟩

/-- What the overflow flag guarantees: when `pn_driver_rebuild` ends with the flag
clear, at most `FD_SETSIZE + 1` descriptors were to enter the read-interest set (the
wake channel is not counted against the budget) and at most `FD_SETSIZE` the
write-interest set. -/
theorem pn_driver_rebuild_budget (d d1 : pn_driver_t)
    (hl : d.listener_count = d.listeners.length)
    (hc : d.connector_count = d.connectors.length)
    (h : pn_driver_rebuild d = some d1) (ho : d1.overflow = false) :
    (read_interest d).length ≤ FD_SETSIZE + 1 ∧ (write_interest d).length ≤ FD_SETSIZE := by
  simp only [pn_driver_rebuild, hl, hc] at h
  cases ha : rebuild_listeners d.listeners.length d.listeners (rebuild_start d) with
  | none => simp [ha] at h
  | some a =>
    simp only [ha] at h
    cases hb : rebuild_connectors d.connectors.length d.connectors a with
    | none => simp [hb] at h
    | some b =>
      simp only [hb, Option.some.injEq] at h
      subst h
      simp only at ho
      obtain ⟨c1, c2, c3⟩ := rebuild_connectors_count d.connectors a b hb ho
      obtain ⟨l1, l2, _⟩ := rebuild_listeners_count d.listeners (rebuild_start d) a ha c3
      simp only [rebuild_start] at l1 l2
      simp only [read_interest, write_interest, List.length_cons, List.length_append,
        List.length_map]
      omega

theorem listeners_driver_overflow (n : Nat) (h : FD_SETSIZE < n) :
    ∃ d1, pn_driver_wait_1 (listeners_driver n) = some d1 ∧ d1.overflow = true := by
  have hlen : (listeners_driver n).listeners.length = n := by simp [listeners_driver]
  have hcnt : (listeners_driver n).listener_count = (listeners_driver n).listeners.length := by
    simp [listeners_driver]
  obtain ⟨b, hb, ho⟩ := rebuild_listeners_overflow (listeners_driver n).listeners
    (rebuild_start (listeners_driver n)) (by rw [hlen]; simpa [rebuild_start] using h)
  refine ⟨{ listeners_driver n with
    wakeup := b.wakeup, overflow := b.overflow, readfds := b.readfds,
    writefds := b.writefds }, ?_, ho⟩
  have hc : (listeners_driver n).connector_count = 0 := by simp [listeners_driver, pn_driver]
  simp only [pn_driver_wait_1, pn_driver_rebuild, hcnt, hb, hc, rebuild_connectors]

theorem listeners_driver_fit (n : Nat) (h : n ≤ FD_SETSIZE) :
    pn_driver_rebuild (listeners_driver n) =
      some { listeners_driver n with
        wakeup := 0, overflow := false,
        readfds := 0 :: ((List.range n).map (fun i => i + 1)).take (FD_SETSIZE - 1),
        writefds := [] } := by
  have hlen : (listeners_driver n).listeners.length = n := by simp [listeners_driver]
  have hcnt : (listeners_driver n).listener_count = (listeners_driver n).listeners.length := by
    simp [listeners_driver]
  have hc : (listeners_driver n).connector_count = 0 := by simp [listeners_driver, pn_driver]
  have hfit := rebuild_listeners_fit (listeners_driver n).listeners
    (rebuild_start (listeners_driver n)) (by rw [hlen]; simpa [rebuild_start] using h)
  have hstart : (rebuild_start (listeners_driver n)).readfds = [0] := by
    simp [rebuild_start, listeners_driver, pn_driver, FD_SET, FD_ZERO, FD_SETSIZE]
  have hfold : (listeners_driver n).listeners.foldl (fun s l => FD_SET l.fd s) [0] =
      [0] ++ ((List.range n).map (fun i => i + 1)).take (FD_SETSIZE - ([0] : fd_set).length) := by
    have hmap : (listeners_driver n).listeners.foldl (fun s l => FD_SET l.fd s) [0] =
        ((List.range n).map (fun i => i + 1)).foldl (fun s x => FD_SET x s) [0] := by
      simp [listeners_driver, List.foldl_map]
    rw [hmap]
    apply FD_SET_foldl_fresh
    · exact (List.nodup_range n).map (fun a b hab => by simpa using hab)
    · intro x hx
      simp only [List.mem_map, List.mem_range] at hx
      obtain ⟨i, _, rfl⟩ := hx
      simp
    · simp [FD_SETSIZE]
  simp only [pn_driver_rebuild, hcnt, hfit, hc, rebuild_connectors, hstart, hfold]
  simp [rebuild_start, FD_ZERO]

/-- C1, as the code behaves: when Build has set the overflow flag, `pn_driver_wait`
does not call `select` and stores the error code `PN_ERR` in the error slot, but,
`PN_ERR` being different from `-1`, the value of `pn_driver_wait_2` is not taken for a
failure and `pn_driver_wait` returns `0`. -/
theorem pn_driver_wait_overflow_returns_zero (PN_ERR : Int) (hE : PN_ERR ≠ -1)
    (now2 : Int) (select : Select) (now3 : Int) (d d1 : pn_driver_t) (timeout : Int)
    (h1 : pn_driver_wait_1 d = some d1) (h2 : d1.overflow = true) :
    ∃ w, pn_driver_wait PN_ERR now2 select now3 d timeout = some w ∧
      w.result = 0 ∧ w.polled = none ∧ w.d.error = PN_ERR := by
  refine ⟨{ d := pn_driver_wait_3 now3 { d1 with error := PN_ERR }, result := 0,
            polled := none }, ?_, rfl, rfl, ?_⟩
  · simp [pn_driver_wait, h1, pn_driver_wait_2, h2, hE, pn_error_set]
  · simp [pn_driver_wait_3]

/-- C1 at a driver with 2049 listeners and `PN_ERR = -2`. -/
theorem pn_driver_wait_overflow_returns_zero_witness :
    ∃ w, pn_driver_wait (-2) 0 quiet_select 0 (listeners_driver 2049) (-1) = some w ∧
      w.result = 0 ∧ w.polled = none ∧ w.d.error = -2 := by
  obtain ⟨d1, h1, h2⟩ := listeners_driver_overflow 2049 (by decide)
  exact pn_driver_wait_overflow_returns_zero (-2) (by decide) 0 quiet_select 0
    (listeners_driver 2049) d1 (-1) h1 h2

/-- C2, at the capacity: with 2048 registered listeners `pn_driver_rebuild` ends with
the overflow flag clear although 2049 descriptors were to enter the read-interest
set; the descriptor of the last listener is not in the set. -/
theorem pn_driver_rebuild_at_capacity :
    ∃ d1, pn_driver_rebuild (listeners_driver 2048) = some d1 ∧ d1.overflow = false ∧
      (read_interest (listeners_driver 2048)).length = 2049 ∧
      2048 ∈ read_interest (listeners_driver 2048) ∧
      FD_ISSET 2048 d1.readfds = false ∧ d1.readfds.length = FD_SETSIZE := by
  refine ⟨_, listeners_driver_fit 2048 (by decide), rfl, ?_, ?_, ?_, ?_⟩
  · simp [read_interest, listeners_driver, pn_driver]
  · simp only [read_interest, listeners_driver, pn_driver, List.mem_cons, List.mem_append,
      List.mem_map, List.mem_range]
    right; left
    exact ⟨⟨2047, false, 2048⟩, ⟨2047, by decide, rfl⟩, rfl⟩
  · simp only [FD_ISSET, decide_eq_false_iff_not, List.mem_cons, List.mem_take_iff_getElem]
    simp [FD_SETSIZE]
  · simp [FD_SETSIZE]

/-! ## Block: the timeout handed to select -/

theorem toInt32_of_range (x : Int) (h0 : -2147483648 ≤ x) (h1 : x < 2147483648) :
    toInt32 x = x := by
  unfold toInt32
  omega

theorem wait_timeout_in_range (wakeup now timeout : Int) (hw : wakeup ≠ 0)
    (hd : wakeup - now < 2147483648) (ht : -2147483648 ≤ timeout) :
    0 ≤ wait_timeout wakeup now timeout ∧
      wait_timeout wakeup now timeout ≤ max 0 (wakeup - now) ∧
      (0 ≤ timeout → wait_timeout wakeup now timeout ≤ timeout) := by
  unfold wait_timeout
  simp only [hw, ne_eq, not_false_eq_true, if_true]
  by_cases hn : now ≥ wakeup
  · simp only [hn, if_true]
    refine ⟨le_refl _, le_max_left _ _, fun h => h⟩
  · simp only [hn, if_false]
    by_cases hneg : timeout < 0
    · simp only [hneg, if_true]
      rw [toInt32_of_range _ (by omega) hd]
      refine ⟨by omega, le_max_right _ _, fun h => by omega⟩
    · simp only [hneg, if_false, pn_min]
      by_cases hgt : timeout > wakeup - now
      · simp only [hgt, if_true]
        rw [toInt32_of_range _ (by omega) hd]
        refine ⟨by omega, le_max_right _ _, fun _ => by omega⟩
      · simp only [hgt, if_false]
        rw [toInt32_of_range _ (by omega) (by omega)]
        refine ⟨by omega, ?_, fun _ => le_refl _⟩
        exact le_trans (by omega) (le_max_right _ _)

/-- C9, at a deadline 2^31 ms ahead: with a negative caller timeout, the clock at 1000
and the merged wakeup deadline at 1000 + 2^31, the difference does not fit the `int`
`timeout`, which becomes -2^31, and `pn_driver_wait_2` calls `select` with a null
timeout: the poll blocks without limit although a deadline is set. -/
theorem pn_driver_wait_2_far_deadline :
    wait_timeout 2147484648 1000 (-1) = -2147483648 ∧
      (pn_driver_wait_2 (-2) 1000 quiet_select (deadline_driver 2147484648) (-1)).polled
        = some none ∧
      (pn_driver_wait_2 (-2) 1000 quiet_select (deadline_driver 2147484648) (-1)).result
        = 0 := by
  refine ⟨by decide, ?_, ?_⟩ <;>
    simp [pn_driver_wait_2, deadline_driver, pn_driver, quiet_select, wait_timeout, toInt32,
      SOCKET_ERROR, pn_error_set, pn_i_error_from_errno]

/-! ## Distribute -/

/-- C10: after `pn_driver_wait_3` the two lists hold the same nodes (address,
descriptor, closed flag and deadline unchanged); every listener is pending iff its
descriptor is in the returned read set; every connector that is not closed has
`pending_read` iff its descriptor is in the returned read set, `pending_write` iff it
is in the returned write set and `pending_tick` iff its deadline is non-zero and not
after `now`; every closed connector has the three flags false; and both cursors are
the heads of their lists. -/
theorem pn_driver_wait_3_distributes (now : Int) (d : pn_driver_t) :
    (pn_driver_wait_3 now d).listeners.map (fun l => (l.id, l.fd))
        = d.listeners.map (fun l => (l.id, l.fd)) ∧
      (pn_driver_wait_3 now d).connectors.map (fun c => (c.id, c.fd, c.closed, c.wakeup))
        = d.connectors.map (fun c => (c.id, c.fd, c.closed, c.wakeup)) ∧
      (∀ l ∈ (pn_driver_wait_3 now d).listeners, (l.pending = true ↔ l.fd ∈ d.readfds)) ∧
      (∀ c ∈ (pn_driver_wait_3 now d).connectors, c.closed = false →
        (c.pending_read = true ↔ c.fd ∈ d.readfds) ∧
        (c.pending_write = true ↔ c.fd ∈ d.writefds) ∧
        (c.pending_tick = true ↔ (c.wakeup ≠ 0 ∧ c.wakeup ≤ now))) ∧
      (∀ c ∈ (pn_driver_wait_3 now d).connectors, c.closed = true →
        c.pending_read = false ∧ c.pending_write = false ∧ c.pending_tick = false) ∧
      (pn_driver_wait_3 now d).listener_next = listener_head (pn_driver_wait_3 now d) ∧
      (pn_driver_wait_3 now d).connector_next = connector_head (pn_driver_wait_3 now d) ∧
      (pn_driver_wait_3 now d).readfds = d.readfds ∧
      (pn_driver_wait_3 now d).writefds = d.writefds := by
  refine ⟨?_, ?_, ?_, ?_, ?_, rfl, rfl, rfl, rfl⟩
  · simp [pn_driver_wait_3, List.map_map, Function.comp_def]
  · simp only [pn_driver_wait_3, List.map_map]
    apply List.map_congr_left
    intro c _
    by_cases hc : c.closed <;> simp [hc]
  · intro l hl
    simp only [pn_driver_wait_3, List.mem_map] at hl
    obtain ⟨l0, _, rfl⟩ := hl
    simp [FD_ISSET]
  · intro c hc hcl
    simp only [pn_driver_wait_3, List.mem_map] at hc
    obtain ⟨c0, _, rfl⟩ := hc
    by_cases h0 : c0.closed
    · simp [h0] at hcl
    · simp [h0, FD_ISSET]
  · intro c hc hcl
    simp only [pn_driver_wait_3, List.mem_map] at hc
    obtain ⟨c0, _, rfl⟩ := hc
    by_cases h0 : c0.closed
    · simp [h0]
    · simp [h0] at hcl

/-! ## Fairness cursors: linked lists and their cursors -/

theorem next_of_cons_self (p : Nat) (rest : List Nat) :
    next_of (p :: rest) p = rest.head? := by
  simp [next_of, List.dropWhile_cons]

theorem next_of_cons_ne (a p : Nat) (rest : List Nat) (h : a ≠ p) :
    next_of (a :: rest) p = next_of rest p := by
  simp [next_of, List.dropWhile_cons, h]

theorem next_of_mem_tail (ids : List Nat) (p q : Nat) (h : next_of ids p = some q) :
    ∃ pre post, ids = pre ++ p :: q :: post ∧ p ∉ pre := by
  induction ids with
  | nil => simp [next_of] at h
  | cons a rest ih =>
    by_cases ha : a = p
    · subst ha
      rw [next_of_cons_self] at h
      cases rest with
      | nil => simp at h
      | cons b post =>
        simp at h
        exact ⟨[], post, by simp [h], by simp⟩
    · rw [next_of_cons_ne a p rest ha] at h
      obtain ⟨pre, post, he, hp⟩ := ih h
      refine ⟨a :: pre, post, by simp [he], ?_⟩
      simp only [List.mem_cons, not_or]
      exact ⟨fun h => ha h.symm, hp⟩

theorem next_of_mem (ids : List Nat) (p q : Nat) (h : next_of ids p = some q) : q ∈ ids := by
  obtain ⟨pre, post, he, _⟩ := next_of_mem_tail ids p q h
  simp [he]

theorem next_of_ne (ids : List Nat) (p q : Nat) (hn : ids.Nodup) (h : next_of ids p = some q) :
    q ≠ p := by
  obtain ⟨pre, post, he, _⟩ := next_of_mem_tail ids p q h
  subst he
  intro hqp
  subst hqp
  have := (List.nodup_append.mp hn).2.1
  simp at this

theorem mem_LL_REMOVE {α : Type} (addr : α → Nat) (list : List α) (p q : Nat) :
    q ∈ (LL_REMOVE addr list p).map addr ↔ q ∈ list.map addr ∧ q ≠ p := by
  simp only [LL_REMOVE, List.mem_map, List.mem_filter]
  constructor
  · rintro ⟨x, ⟨hx, hne⟩, rfl⟩
    exact ⟨⟨x, hx, rfl⟩, by simpa using hne⟩
  · rintro ⟨⟨x, hx, rfl⟩, hne⟩
    exact ⟨x, ⟨hx, by simpa using hne⟩, rfl⟩

theorem nodup_LL_REMOVE {α : Type} (addr : α → Nat) (list : List α) (p : Nat)
    (h : (list.map addr).Nodup) : ((LL_REMOVE addr list p).map addr).Nodup :=
  h.sublist ((List.filter_sublist list).map addr)

theorem listener_scan_mem (s : List pn_listener_t) (q : Nat)
    (h : (listener_scan s).1 = some q) : q ∈ s.map (fun l => l.id) := by
  induction s with
  | nil => simp [listener_scan] at h
  | cons l rest ih =>
    by_cases hp : l.pending
    · simp only [listener_scan, hp, if_true] at h
      cases rest with
      | nil => simp at h
      | cons b post => simp at h; simp [h]
    · simp only [listener_scan, hp] at h
      simp only [List.map_cons, List.mem_cons]
      exact Or.inr (ih h)

theorem connector_scan_mem (s : List pn_connector_t) (q : Nat)
    (h : (connector_scan s).1 = some q) : q ∈ s.map (fun c => c.id) := by
  induction s with
  | nil => simp [connector_scan] at h
  | cons c rest ih =>
    by_cases hp : connector_ready c
    · simp only [connector_scan, hp, if_true] at h
      cases rest with
      | nil => simp at h
      | cons b post => simp at h; simp [h]
    · simp only [connector_scan, hp] at h
      simp only [List.map_cons, List.mem_cons]
      exact Or.inr (ih h)

theorem mem_map_of_dropWhile {α : Type} (addr : α → Nat) (f : α → Bool) (list : List α)
    (q : Nat) (h : q ∈ (list.dropWhile f).map addr) : q ∈ list.map addr := by
  simp only [List.mem_map] at h ⊢
  obtain ⟨x, hx, rfl⟩ := h
  exact ⟨x, (List.dropWhile_sublist f).subset hx, rfl⟩

theorem linked_pn_driver (ctrl0 ctrl1 : Nat) : Linked (pn_driver ctrl0 ctrl1) := by
  refine ⟨by simp [pn_driver], by simp [pn_driver], ?_, ?_⟩ <;>
    intro p hp <;> simp [pn_driver] at hp

theorem linked_listener_fd (d : pn_driver_t) (p fd : Nat) (h : Linked d)
    (hp : op_ok d (.listener_fd p fd) = true) : Linked (pn_listener_fd d p fd) := by
  have hfresh : p ∉ d.listeners.map (fun l => l.id) := by
    simp only [op_ok, Bool.not_eq_true', List.any_eq_false, beq_iff_eq] at hp
    simp only [List.mem_map, not_exists, not_and]
    intro x hx hxp
    exact hp x hx hxp
  refine ⟨?_, h.connectors_nodup, ?_, h.cursors.2⟩
  · simp only [pn_listener_fd, pn_driver_add_listener, LL_ADD, List.map_append, List.map_cons,
      List.map_nil]
    exact List.Nodup.append h.listeners_nodup (List.nodup_singleton p)
      (by simpa [List.disjoint_singleton] using hfresh)
  · intro q hq
    have := h.cursors.1 q hq
    simp only [pn_listener_fd, pn_driver_add_listener, LL_ADD, List.map_append,
      List.mem_append]
    exact Or.inl this

theorem linked_connector_fd (d : pn_driver_t) (p fd : Nat) (h : Linked d)
    (hp : op_ok d (.connector_fd p fd) = true) : Linked (pn_connector_fd d p fd) := by
  have hfresh : p ∉ d.connectors.map (fun c => c.id) := by
    simp only [op_ok, Bool.not_eq_true', List.any_eq_false, beq_iff_eq] at hp
    simp only [List.mem_map, not_exists, not_and]
    intro x hx hxp
    exact hp x hx hxp
  refine ⟨h.listeners_nodup, ?_, h.cursors.1, ?_⟩
  · simp only [pn_connector_fd, pn_driver_add_connector, LL_ADD, List.map_append,
      List.map_cons, List.map_nil, new_connector]
    exact List.Nodup.append h.connectors_nodup (List.nodup_singleton p)
      (by simpa [List.disjoint_singleton] using hfresh)
  · intro q hq
    have := h.cursors.2 q hq
    simp only [pn_connector_fd, pn_driver_add_connector, LL_ADD, List.map_append,
      List.mem_append]
    exact Or.inl this

theorem remove_listener_cursor (d : pn_driver_t) (p : Nat) :
    (pn_driver_remove_listener d p).listener_next =
      if d.listener_next = some p then next_of (d.listeners.map (fun l => l.id)) p
      else d.listener_next := by
  unfold pn_driver_remove_listener
  by_cases h : d.listener_next = some p <;> simp [h]

theorem remove_listener_list (d : pn_driver_t) (p : Nat) :
    (pn_driver_remove_listener d p).listeners = LL_REMOVE (fun l => l.id) d.listeners p := by
  unfold pn_driver_remove_listener
  by_cases h : d.listener_next = some p <;> simp [h]

theorem remove_listener_frame (d : pn_driver_t) (p : Nat) :
    (pn_driver_remove_listener d p).connectors = d.connectors ∧
      (pn_driver_remove_listener d p).connector_next = d.connector_next := by
  unfold pn_driver_remove_listener
  by_cases h : d.listener_next = some p <;> simp [h]

theorem linked_remove_listener (d : pn_driver_t) (p : Nat) (h : Linked d) :
    Linked (pn_driver_remove_listener d p) := by
  refine ⟨?_, ?_, ?_, ?_⟩
  · rw [remove_listener_list]
    exact nodup_LL_REMOVE _ _ _ h.listeners_nodup
  · rw [(remove_listener_frame d p).1]
    exact h.connectors_nodup
  · intro q hq
    rw [remove_listener_list, mem_LL_REMOVE]
    rw [remove_listener_cursor] at hq
    by_cases hc : d.listener_next = some p
    · rw [if_pos hc] at hq
      exact ⟨next_of_mem _ _ _ hq, next_of_ne _ _ _ h.listeners_nodup hq⟩
    · rw [if_neg hc] at hq
      refine ⟨h.cursors.1 q hq, ?_⟩
      intro hqp
      exact hc (hqp ▸ hq)
  · intro q hq
    rw [(remove_listener_frame d p).2] at hq
    rw [(remove_listener_frame d p).1]
    exact h.cursors.2 q hq

theorem remove_connector_cursor (d : pn_driver_t) (c : pn_connector_t) :
    (pn_driver_remove_connector d c).connector_next =
      if d.connector_next = some c.id then next_of (d.connectors.map (fun x => x.id)) c.id
      else d.connector_next := by
  unfold pn_driver_remove_connector
  by_cases h : d.connector_next = some c.id <;> by_cases hc : c.closed <;> simp [h, hc]

theorem remove_connector_list (d : pn_driver_t) (c : pn_connector_t) :
    (pn_driver_remove_connector d c).connectors =
      LL_REMOVE (fun x => x.id) d.connectors c.id := by
  unfold pn_driver_remove_connector
  by_cases h : d.connector_next = some c.id <;> by_cases hc : c.closed <;> simp [h, hc]

theorem remove_connector_frame (d : pn_driver_t) (c : pn_connector_t) :
    (pn_driver_remove_connector d c).listeners = d.listeners ∧
      (pn_driver_remove_connector d c).listener_next = d.listener_next := by
  unfold pn_driver_remove_connector
  by_cases h : d.connector_next = some c.id <;> by_cases hc : c.closed <;> simp [h, hc]

theorem linked_remove_connector (d : pn_driver_t) (c : pn_connector_t) (h : Linked d) :
    Linked (pn_driver_remove_connector d c) := by
  refine ⟨?_, ?_, ?_, ?_⟩
  · rw [(remove_connector_frame d c).1]
    exact h.listeners_nodup
  · rw [remove_connector_list]
    exact nodup_LL_REMOVE _ _ _ h.connectors_nodup
  · intro q hq
    rw [(remove_connector_frame d c).2] at hq
    rw [(remove_connector_frame d c).1]
    exact h.cursors.1 q hq
  · intro q hq
    rw [remove_connector_list, mem_LL_REMOVE]
    rw [remove_connector_cursor] at hq
    by_cases hc : d.connector_next = some c.id
    · rw [if_pos hc] at hq
      exact ⟨next_of_mem _ _ _ hq, next_of_ne _ _ _ h.connectors_nodup hq⟩
    · rw [if_neg hc] at hq
      refine ⟨h.cursors.2 q hq, ?_⟩
      intro hqp
      exact hc (hqp ▸ hq)

theorem linked_wait_3 (now : Int) (d : pn_driver_t) (r w : fd_set) (h : Linked d) :
    Linked (pn_driver_wait_3 now { d with readfds := r, writefds := w }) := by
  have hl : (pn_driver_wait_3 now { d with readfds := r, writefds := w }).listeners.map
      (fun l => l.id) = d.listeners.map (fun l => l.id) := by
    simp [pn_driver_wait_3, List.map_map, Function.comp_def]
  have hc : (pn_driver_wait_3 now { d with readfds := r, writefds := w }).connectors.map
      (fun c => c.id) = d.connectors.map (fun c => c.id) := by
    simp only [pn_driver_wait_3, List.map_map]
    apply List.map_congr_left
    intro c _
    by_cases hcl : c.closed <;> simp [hcl]
  refine ⟨hl ▸ h.listeners_nodup, hc ▸ h.connectors_nodup, ?_, ?_⟩
  · intro q hq
    have hq2 : listener_head (pn_driver_wait_3 now { d with readfds := r, writefds := w })
        = some q := hq
    unfold listener_head at hq2
    cases hh : (pn_driver_wait_3 now { d with readfds := r, writefds := w }).listeners with
    | nil => simp [hh] at hq2
    | cons a rest =>
      simp [hh] at hq2
      simp [hh, hq2]
  · intro q hq
    have hq2 : connector_head (pn_driver_wait_3 now { d with readfds := r, writefds := w })
        = some q := hq
    unfold connector_head at hq2
    cases hh : (pn_driver_wait_3 now { d with readfds := r, writefds := w }).connectors with
    | nil => simp [hh] at hq2
    | cons a rest =>
      simp [hh] at hq2
      simp [hh, hq2]

theorem linked_driver_listener (d : pn_driver_t) (h : Linked d) :
    Linked (pn_driver_listener d).1 := by
  unfold pn_driver_listener
  cases hc : d.listener_next with
  | none => simpa using h
  | some p =>
    refine ⟨h.listeners_nodup, h.connectors_nodup, ?_, h.cursors.2⟩
    intro q hq
    exact mem_map_of_dropWhile _ _ _ _ (listener_scan_mem _ _ hq)

theorem linked_driver_connector (d : pn_driver_t) (h : Linked d) :
    Linked (pn_driver_connector d).1 := by
  unfold pn_driver_connector
  cases hc : d.connector_next with
  | none => simpa using h
  | some p =>
    refine ⟨h.listeners_nodup, h.connectors_nodup, h.cursors.1, ?_⟩
    intro q hq
    exact mem_map_of_dropWhile _ _ _ _ (connector_scan_mem _ _ hq)

theorem linked_step (d : pn_driver_t) (op : DriverOp) (h : Linked d)
    (hok : op_ok d op = true) : Linked (step d op) := by
  cases op with
  | listener_fd p fd => exact linked_listener_fd d p fd h hok
  | listener_free p =>
    simp only [step, pn_listener_free]
    split
    · exact linked_remove_listener d p h
    · exact h
  | connector_fd p fd => exact linked_connector_fd d p fd h hok
  | connector_free p =>
    simp only [step, pn_connector_free]
    split
    · exact linked_remove_connector d _ h
    · exact h
  | wait_3 now r w => exact linked_wait_3 now d r w h
  | driver_listener => exact linked_driver_listener d h
  | driver_connector => exact linked_driver_connector d h

theorem linked_run (ops : List DriverOp) :
    ∀ d : pn_driver_t, Linked d → run_ok d ops = true → Linked (run d ops) := by
  induction ops with
  | nil => intro d h _; exact h
  | cons op rest ih =>
    intro d h hok
    simp only [run_ok, Bool.and_eq_true] at hok
    exact ih (step d op) (linked_step d op h hok.1) hok.2

theorem connector_scan_spec (s : List pn_connector_t) :
    (connector_scan s).2 = ((s.filter connector_ready).map (fun c => c.id)).head? ∧
      ∃ pre s', s = pre ++ s' ∧ (connector_scan s).1 = (s'.head?).map (fun c => c.id) ∧
        (s'.filter connector_ready).map (fun c => c.id)
          = ((s.filter connector_ready).map (fun c => c.id)).drop 1 := by
  induction s with
  | nil => exact ⟨by simp [connector_scan], [], [], by simp [connector_scan]⟩
  | cons c rest ih =>
    by_cases hr : connector_ready c
    · refine ⟨by simp [connector_scan, hr], [c], rest, by simp, by simp [connector_scan, hr], ?_⟩
      simp [List.filter_cons, hr]
    · obtain ⟨h2, pre, s', hs, h1, hd⟩ := ih
      refine ⟨by simpa [connector_scan, hr, List.filter_cons] using h2, c :: pre, s',
        by simp [hs], by simpa [connector_scan, hr] using h1, ?_⟩
      simpa [List.filter_cons, hr] using hd

theorem listener_scan_spec (s : List pn_listener_t) :
    (listener_scan s).2 = ((s.filter (fun l => l.pending)).map (fun l => l.id)).head? ∧
      ∃ pre s', s = pre ++ s' ∧ (listener_scan s).1 = (s'.head?).map (fun l => l.id) ∧
        (s'.filter (fun l => l.pending)).map (fun l => l.id)
          = ((s.filter (fun l => l.pending)).map (fun l => l.id)).drop 1 := by
  induction s with
  | nil => exact ⟨by simp [listener_scan], [], [], by simp [listener_scan]⟩
  | cons c rest ih =>
    by_cases hr : c.pending
    · refine ⟨by simp [listener_scan, hr], [c], rest, by simp, by simp [listener_scan, hr], ?_⟩
      simp [List.filter_cons, hr]
    · obtain ⟨h2, pre, s', hs, h1, hd⟩ := ih
      refine ⟨by simpa [listener_scan, hr, List.filter_cons] using h2, c :: pre, s',
        by simp [hs], by simpa [listener_scan, hr] using h1, ?_⟩
      simpa [List.filter_cons, hr] using hd

theorem dropWhile_at {α : Type} (addr : α → Nat) (pre : List α) (c : α) (post : List α)
    (h : ((pre ++ c :: post).map addr).Nodup) :
    (pre ++ c :: post).dropWhile (fun x => addr x != addr c) = c :: post := by
  induction pre with
  | nil => simp [List.dropWhile_cons]
  | cons a pre ih =>
    simp only [List.cons_append, List.map_cons, List.nodup_cons] at h
    have hne : addr a ≠ addr c := by
      intro he
      apply h.1
      simp [he]
    simp only [List.cons_append, List.dropWhile_cons, bne_iff_ne, ne_eq, hne,
      not_false_eq_true, if_true]
    exact ih h.2

theorem connector_calls_spec (k : Nat) :
    ∀ (d : pn_driver_t) (pre s : List pn_connector_t), d.connectors = pre ++ s →
      (d.connectors.map (fun c => c.id)).Nodup →
      d.connector_next = (s.head?).map (fun c => c.id) →
      (pn_driver_connector (after_connector_calls k d)).2
        = ((s.filter connector_ready).map (fun c => c.id))[k]? := by
  induction k with
  | zero =>
    intro d pre s hs hn hc
    cases s with
    | nil =>
      simp only [List.head?_nil, Option.map_none'] at hc
      simp [after_connector_calls, pn_driver_connector, hc]
    | cons c post =>
      simp only [List.head?_cons, Option.map_some'] at hc
      have hdw := dropWhile_at (fun x : pn_connector_t => x.id) pre c post (hs ▸ hn)
      simp only [after_connector_calls, pn_driver_connector, hc, hs, hdw]
      rw [(connector_scan_spec (c :: post)).1]
      simp [List.head?_eq_getElem?]
  | succ k ih =>
    intro d pre s hs hn hc
    cases s with
    | nil =>
      simp only [List.head?_nil, Option.map_none'] at hc
      have hsame : (pn_driver_connector d).1 = d := by simp [pn_driver_connector, hc]
      simp only [after_connector_calls, hsame]
      rw [ih d pre [] hs hn (by simpa using hc)]
      simp
    | cons c post =>
      simp only [List.head?_cons, Option.map_some'] at hc
      have hdw := dropWhile_at (fun x : pn_connector_t => x.id) pre c post (hs ▸ hn)
      obtain ⟨_, pre2, s', hs2, h1, hd⟩ := connector_scan_spec (c :: post)
      have hcon : (pn_driver_connector d).1.connectors = (pre ++ pre2) ++ s' := by
        simp [pn_driver_connector, hc, hs, hs2]
      have hcur : (pn_driver_connector d).1.connector_next = (s'.head?).map (fun c => c.id) := by
        simp only [pn_driver_connector, hc, hs, hdw]
        exact h1
      have hn2 : ((pn_driver_connector d).1.connectors.map (fun c => c.id)).Nodup := by
        have : (pn_driver_connector d).1.connectors = d.connectors := by
          simp [pn_driver_connector, hc]
        rw [this]
        exact hn
      simp only [after_connector_calls]
      rw [ih (pn_driver_connector d).1 (pre ++ pre2) s' hcon hn2 hcur, hd]
      simp [List.getElem?_drop, Nat.add_comm]

theorem listener_calls_spec (k : Nat) :
    ∀ (d : pn_driver_t) (pre s : List pn_listener_t), d.listeners = pre ++ s →
      (d.listeners.map (fun l => l.id)).Nodup →
      d.listener_next = (s.head?).map (fun l => l.id) →
      (pn_driver_listener (after_listener_calls k d)).2
        = ((s.filter (fun l => l.pending)).map (fun l => l.id))[k]? := by
  induction k with
  | zero =>
    intro d pre s hs hn hc
    cases s with
    | nil =>
      simp only [List.head?_nil, Option.map_none'] at hc
      simp [after_listener_calls, pn_driver_listener, hc]
    | cons c post =>
      simp only [List.head?_cons, Option.map_some'] at hc
      have hdw := dropWhile_at (fun x : pn_listener_t => x.id) pre c post (hs ▸ hn)
      simp only [after_listener_calls, pn_driver_listener, hc, hs, hdw]
      rw [(listener_scan_spec (c :: post)).1]
      simp [List.head?_eq_getElem?]
  | succ k ih =>
    intro d pre s hs hn hc
    cases s with
    | nil =>
      simp only [List.head?_nil, Option.map_none'] at hc
      have hsame : (pn_driver_listener d).1 = d := by simp [pn_driver_listener, hc]
      simp only [after_listener_calls, hsame]
      rw [ih d pre [] hs hn (by simpa using hc)]
      simp
    | cons c post =>
      simp only [List.head?_cons, Option.map_some'] at hc
      have hdw := dropWhile_at (fun x : pn_listener_t => x.id) pre c post (hs ▸ hn)
      obtain ⟨_, pre2, s', hs2, h1, hd⟩ := listener_scan_spec (c :: post)
      have hcon : (pn_driver_listener d).1.listeners = (pre ++ pre2) ++ s' := by
        simp [pn_driver_listener, hc, hs, hs2]
      have hcur : (pn_driver_listener d).1.listener_next = (s'.head?).map (fun l => l.id) := by
        simp only [pn_driver_listener, hc, hs, hdw]
        exact h1
      have hn2 : ((pn_driver_listener d).1.listeners.map (fun l => l.id)).Nodup := by
        have : (pn_driver_listener d).1.listeners = d.listeners := by
          simp [pn_driver_listener, hc]
        rw [this]
        exact hn
      simp only [after_listener_calls]
      rw [ih (pn_driver_listener d).1 (pre ++ pre2) s' hcon hn2 hcur, hd]
      simp [List.getElem?_drop, Nat.add_comm]

theorem wait_3_listener_ids (now : Int) (d : pn_driver_t) :
    (pn_driver_wait_3 now d).listeners.map (fun l => l.id) = d.listeners.map (fun l => l.id) := by
  simp [pn_driver_wait_3, List.map_map, Function.comp_def]

theorem wait_3_connector_ids (now : Int) (d : pn_driver_t) :
    (pn_driver_wait_3 now d).connectors.map (fun c => c.id)
      = d.connectors.map (fun c => c.id) := by
  simp only [pn_driver_wait_3, List.map_map]
  apply List.map_congr_left
  intro c _
  by_cases hcl : c.closed <;> simp [hcl]

theorem listener_free_linked (d : pn_driver_t) (p : Nat) (h : Linked d)
    (hp : d.listener_next = some p) :
    (pn_listener_free d p).listener_next = next_of (d.listeners.map (fun l => l.id)) p ∧
      p ∉ (pn_listener_free d p).listeners.map (fun l => l.id) ∧
      cursor_linked (pn_listener_free d p) := by
  have hmem := h.cursors.1 p hp
  have hany : d.listeners.any (fun l => l.id == p) = true := by
    simp only [List.mem_map] at hmem
    obtain ⟨x, hx, hxp⟩ := hmem
    simp only [List.any_eq_true, beq_iff_eq]
    exact ⟨x, hx, hxp⟩
  simp only [pn_listener_free, hany, if_true]
  refine ⟨by rw [remove_listener_cursor, if_pos hp], ?_, (linked_remove_listener d p h).cursors⟩
  rw [remove_listener_list, mem_LL_REMOVE]
  simp

theorem connector_free_linked (d : pn_driver_t) (p : Nat) (h : Linked d)
    (hp : d.connector_next = some p) :
    (pn_connector_free d p).connector_next = next_of (d.connectors.map (fun c => c.id)) p ∧
      p ∉ (pn_connector_free d p).connectors.map (fun c => c.id) ∧
      cursor_linked (pn_connector_free d p) := by
  have hmem := h.cursors.2 p hp
  simp only [List.mem_map] at hmem
  obtain ⟨x, hx, hxp⟩ := hmem
  cases hf : d.connectors.find? (fun c => c.id == p) with
  | none =>
    rw [List.find?_eq_none] at hf
    exact absurd (by simpa using hxp) (hf x hx)
  | some c =>
    have hcp : c.id = p := by simpa using List.find?_some hf
    simp only [pn_connector_free, hf]
    refine ⟨?_, ?_, (linked_remove_connector d c h).cursors⟩
    · rw [remove_connector_cursor, hcp, if_pos hp]
    · rw [remove_connector_list, mem_LL_REMOVE, hcp]
      simp

/-- C3: after every sequence of registrations, unregistrations, Distribute resets and
cursor retrievals on a fresh driver (each allocation returning an address not in
use), each fairness cursor is null or the address of a node linked in its list; and
freeing the node a cursor targets sets the cursor to that node's successor, unlinks
the node and leaves both cursors linked. -/
theorem cursors_never_dangle (ctrl0 ctrl1 : Nat) (ops : List DriverOp)
    (h : run_ok (pn_driver ctrl0 ctrl1) ops = true) :
    cursor_linked (run (pn_driver ctrl0 ctrl1) ops) ∧
      (∀ p, (run (pn_driver ctrl0 ctrl1) ops).listener_next = some p →
        (pn_listener_free (run (pn_driver ctrl0 ctrl1) ops) p).listener_next
            = next_of ((run (pn_driver ctrl0 ctrl1) ops).listeners.map (fun l => l.id)) p ∧
          p ∉ (pn_listener_free (run (pn_driver ctrl0 ctrl1) ops) p).listeners.map
            (fun l => l.id) ∧
          cursor_linked (pn_listener_free (run (pn_driver ctrl0 ctrl1) ops) p)) ∧
      (∀ p, (run (pn_driver ctrl0 ctrl1) ops).connector_next = some p →
        (pn_connector_free (run (pn_driver ctrl0 ctrl1) ops) p).connector_next
            = next_of ((run (pn_driver ctrl0 ctrl1) ops).connectors.map (fun c => c.id)) p ∧
          p ∉ (pn_connector_free (run (pn_driver ctrl0 ctrl1) ops) p).connectors.map
            (fun c => c.id) ∧
          cursor_linked (pn_connector_free (run (pn_driver ctrl0 ctrl1) ops) p)) := by
  have hl := linked_run ops (pn_driver ctrl0 ctrl1) (linked_pn_driver ctrl0 ctrl1) h
  exact ⟨hl.cursors, fun p hp => listener_free_linked _ p hl hp,
    fun p hp => connector_free_linked _ p hl hp⟩

/-- C3 at a run that frees the nodes both cursors target. -/
theorem cursors_never_dangle_witness :
    run_ok (pn_driver 3 4) sample_calls = true ∧
      cursor_linked (run (pn_driver 3 4) sample_calls) ∧
      (∀ p, (run (pn_driver 3 4) sample_calls).listener_next = some p →
        (pn_listener_free (run (pn_driver 3 4) sample_calls) p).listener_next
            = next_of ((run (pn_driver 3 4) sample_calls).listeners.map (fun l => l.id)) p ∧
          p ∉ (pn_listener_free (run (pn_driver 3 4) sample_calls) p).listeners.map
            (fun l => l.id) ∧
          cursor_linked (pn_listener_free (run (pn_driver 3 4) sample_calls) p)) ∧
      (∀ p, (run (pn_driver 3 4) sample_calls).connector_next = some p →
        (pn_connector_free (run (pn_driver 3 4) sample_calls) p).connector_next
            = next_of ((run (pn_driver 3 4) sample_calls).connectors.map (fun c => c.id)) p ∧
          p ∉ (pn_connector_free (run (pn_driver 3 4) sample_calls) p).connectors.map
            (fun c => c.id) ∧
          cursor_linked (pn_connector_free (run (pn_driver 3 4) sample_calls) p)) :=
  ⟨by decide, cursors_never_dangle 3 4 sample_calls (by decide)⟩

theorem connector_ready_spelled (c : pn_connector_t) :
    connector_ready c = decide (c.closed = true ∨ c.pending_read = true ∨
      c.pending_write = true ∨ c.pending_tick = true ∨ 0 < c.input_size ∨
      c.input_eos = true) := by
  have hsz : (c.input_size != 0) = decide (0 < c.input_size) := by
    by_cases h0 : c.input_size = 0
    · simp [h0]
    · have hpos : 0 < c.input_size := Nat.pos_of_ne_zero h0
      simp [h0, hpos]
  unfold connector_ready
  rw [hsz]
  cases c.closed <;> cases c.pending_read <;> cases c.pending_write <;>
    cases c.pending_tick <;> cases c.input_eos <;>
    by_cases hp : 0 < c.input_size <;> simp [hp]

/-- C4: after a Distribute, with nothing else touching the driver, the call number
`k + 1` of `pn_driver_connector` returns the connector number `k` (from 0, in list
order) among the registered connectors that are closed, or have `pending_read`,
`pending_write` or `pending_tick` set, or have `input_size > 0`, or have `input_eos`
set, and returns null when there is no such connector; likewise the call number
`k + 1` of `pn_driver_listener` returns the listener number `k` among the listeners
with `pending` set, and null when there is none. -/
theorem cursor_retrieval_after_distribute (now : Int) (d : pn_driver_t)
    (hl : (d.listeners.map (fun l => l.id)).Nodup)
    (hc : (d.connectors.map (fun c => c.id)).Nodup) (k : Nat) :
    (pn_driver_connector (after_connector_calls k (pn_driver_wait_3 now d))).2
        = (((pn_driver_wait_3 now d).connectors.filter
            (fun c => decide (c.closed = true ∨ c.pending_read = true ∨
              c.pending_write = true ∨ c.pending_tick = true ∨ 0 < c.input_size ∨
              c.input_eos = true))).map (fun c => c.id))[k]? ∧
      (pn_driver_listener (after_listener_calls k (pn_driver_wait_3 now d))).2
        = (((pn_driver_wait_3 now d).listeners.filter (fun l => l.pending = true)).map
            (fun l => l.id))[k]? := by
  have hf : (pn_driver_wait_3 now d).connectors.filter
      (fun c => decide (c.closed = true ∨ c.pending_read = true ∨
        c.pending_write = true ∨ c.pending_tick = true ∨ 0 < c.input_size ∨
        c.input_eos = true))
      = (pn_driver_wait_3 now d).connectors.filter connector_ready :=
    List.filter_congr (fun c _ => (connector_ready_spelled c).symm)
  have hg : (pn_driver_wait_3 now d).listeners.filter (fun l => decide (l.pending = true))
      = (pn_driver_wait_3 now d).listeners.filter (fun l => l.pending) :=
    List.filter_congr (fun l _ => by simp)
  rw [hf, hg]
  constructor
  · exact connector_calls_spec k (pn_driver_wait_3 now d) [] _ rfl
      (by rw [wait_3_connector_ids]; exact hc) rfl
  · exact listener_calls_spec k (pn_driver_wait_3 now d) [] _ rfl
      (by rw [wait_3_listener_ids]; exact hl) rfl

/-! ## Connector: buffers -/

theorem toSize_of_range (x : Int) (h0 : 0 ≤ x) (h1 : x < (SIZE_MOD : Int)) :
    toSize x = x.toNat := by
  unfold toSize
  rw [Int.emod_eq_of_lt h0 h1]

theorem content_length (buf : Buffer) (n : Nat) : (content buf n).length = n := by
  simp [content]

theorem content_blit (buf : Buffer) (b : List Nat) : content (blit buf 0 b) b.length = b := by
  apply List.ext_getElem
  · simp [content]
  · intro i h1 h2
    simp only [content, List.getElem_map, List.getElem_range, blit]
    have hi : i < b.length := h2
    simp [hi, List.getD_eq_getElem?_getD, List.getElem?_eq_getElem hi]

/-- C5: when the output buffer holds `N > 0` bytes and the send of
`pn_connector_write` reports `K` bytes with `0 <= K < N`, then afterwards
`output_size = N - K` and the first `N - K` bytes of the output buffer are the bytes
`K .. N - 1` of the previous content, in the same order. -/
theorem pn_connector_write_keeps_rest (send : Buffer → Nat → SendResult) (c : pn_connector_t)
    (K : Nat) (hN : 0 < c.output_size) (hS : c.output_size < SIZE_MOD)
    (hK : (send c.output c.output_size).n = (K : Int)) (hlt : K < c.output_size) :
    (pn_connector_write send c).output_size = c.output_size - K ∧
      (∀ i, i < c.output_size - K →
        (pn_connector_write send c).output i = c.output (K + i)) ∧
      content (pn_connector_write send c).output (pn_connector_write send c).output_size
        = (content c.output c.output_size).drop K := by
  have hsz : toSize ((c.output_size : Int) - (K : Int)) = c.output_size - K := by
    rw [toSize_of_range _ (by omega) (by simp only [SIZE_MOD] at hS ⊢; omega)]
    omega
  have hne : c.output_size - K ≠ 0 := by omega
  have hw : pn_connector_write send c =
      { c with output_size := c.output_size - K,
               output := memmove c.output (K : Int) (c.output_size - K) } := by
    have hk0 : ¬ ((K : Int) < 0) := by omega
    simp [pn_connector_write, hN, hK, hsz, hne, hk0]
  have hidx : ∀ i, i < c.output_size - K →
      memmove c.output (K : Int) (c.output_size - K) i = c.output (K + i) := by
    intro i hi
    simp only [memmove, hi, if_true]
    congr 1
    omega
  rw [hw]
  refine ⟨rfl, hidx, ?_⟩
  apply List.ext_getElem
  · simp [content]
  · intro i h1 h2
    simp only [content, List.length_map, List.length_range] at h1
    simp only [content, List.getElem_map, List.getElem_range, List.getElem_drop]
    exact hidx i h1

/-! ## Connector: the per-cycle work unit -/

theorem pn_connector_read_closed (recv : Nat → RecvResult) (c : pn_connector_t) :
    (pn_connector_read recv c).closed = c.closed := by
  simp only [pn_connector_read]
  split_ifs <;> rfl

theorem pn_connector_consume_closed (c : pn_connector_t) (n : Int) :
    (pn_connector_consume c n).closed = c.closed := rfl

theorem pn_connector_process_input_closed {σ : Type} (T : Transport σ) (c : pn_connector_t)
    (t : σ) : (pn_connector_process_input T c t).1.closed = c.closed := by
  simp only [pn_connector_process_input]
  split_ifs
  · exact pn_connector_consume_closed _ _
  · dsimp only
    exact pn_connector_consume_closed _ _
  · rfl
  · rfl

theorem pn_connector_process_output_closed {σ : Type} (T : Transport σ) (c : pn_connector_t)
    (t : σ) : (pn_connector_process_output T c t).1.closed = c.closed := by
  simp only [pn_connector_process_output]
  split_ifs <;> rfl

theorem pn_connector_write_closed (send : Buffer → Nat → SendResult) (c : pn_connector_t) :
    (pn_connector_write send c).closed = c.closed := by
  simp only [pn_connector_write]
  split_ifs <;> rfl

theorem process_read_closed (recv : Nat → RecvResult) (c : pn_connector_t) :
    (process_read recv c).closed = c.closed := by
  simp only [process_read]
  split_ifs
  · exact pn_connector_read_closed recv c
  · rfl

theorem process_write_closed {σ : Type} (T : Transport σ) (send : Buffer → Nat → SendResult)
    (r : pn_connector_t × σ) : (process_write T send r).1.closed = r.1.closed := by
  simp only [process_write]
  split_ifs
  · rw [pn_connector_process_output_closed]
    exact pn_connector_write_closed send r.1
  · rfl

theorem process_steps_closed {σ : Type} (T : Transport σ) (recv : Nat → RecvResult)
    (send : Buffer → Nat → SendResult) (now : Int) (c : pn_connector_t) (t : σ) :
    (process_steps T recv send now c t).1.closed = c.closed := by
  simp only [process_steps]
  rw [process_write_closed, pn_connector_process_output_closed]
  simp only [process_tick]
  rw [pn_connector_process_input_closed, process_read_closed]

/-- C6: for a connector that is not closed, whatever the socket and the transport
do, after `pn_connector_process` the connector is closed iff at the end of the read,
feed, tick, drain and send steps its `output_size` is 0 and `input_done` and
`output_done` are both set; when it is closed the driver's `closed_count` has grown
by exactly one, and otherwise the count is unchanged. -/
theorem pn_connector_process_closes_iff {σ : Type} (T : Transport σ) (recv : Nat → RecvResult)
    (send : Buffer → Nat → SendResult) (now : Int) (d : pn_driver_t) (c : pn_connector_t)
    (t : σ) (h : c.closed = false) :
    ((pn_connector_process T recv send now d c t).2.1.closed = true ↔
        ((process_steps T recv send now c t).1.output_size = 0 ∧
          (process_steps T recv send now c t).1.input_done = true ∧
          (process_steps T recv send now c t).1.output_done = true)) ∧
      ((pn_connector_process T recv send now d c t).2.1.closed = true →
        (pn_connector_process T recv send now d c t).1.closed_count = d.closed_count + 1) ∧
      ((pn_connector_process T recv send now d c t).2.1.closed = false →
        (pn_connector_process T recv send now d c t).1.closed_count = d.closed_count) := by
  have hs := process_steps_closed T recv send now c t
  rw [h] at hs
  by_cases hd : close_due (process_steps T recv send now c t).1 = true
  · have hp : pn_connector_process T recv send now d c t =
        ((pn_connector_close d (process_steps T recv send now c t).1).1,
          (pn_connector_close d (process_steps T recv send now c t).1).2,
          (process_steps T recv send now c t).2) := by
      simp [pn_connector_process, h, hd]
    rw [hp]
    simp only [close_due, Bool.and_eq_true, beq_iff_eq] at hd
    refine ⟨?_, ?_, ?_⟩
    · simp [pn_connector_close, hd.1.1, hd.1.2, hd.2]
    · intro _; simp [pn_connector_close]
    · intro hc; simp [pn_connector_close] at hc
  · have hp : pn_connector_process T recv send now d c t =
        (d, (process_steps T recv send now c t).1, (process_steps T recv send now c t).2) := by
      simp [pn_connector_process, h, hd]
    rw [hp]
    simp only [close_due, Bool.and_eq_true, beq_iff_eq, not_and] at hd
    refine ⟨?_, ?_, ?_⟩
    · simp only [hs, Bool.false_eq_true, false_iff, not_and]
      intro h1 h2
      simpa using hd ⟨h1, h2⟩
    · intro hc; simp [hs] at hc
    · intro _; rfl

theorem toSize_natCast (n : Nat) (h : n < SIZE_MOD) : toSize (n : Int) = n := by
  rw [toSize_of_range _ (by omega) (by exact_mod_cast h)]
  simp

theorem toSize_io_buf_size : toSize ((IO_BUF_SIZE : Int) - ((0 : Nat) : Int)) = IO_BUF_SIZE := by
  decide

theorem echo_feed (c : pn_connector_t) (h_len : c.input_size ≤ IO_BUF_SIZE)
    (h_id : c.input_done = false) :
    ∃ c2, pn_connector_process_input echo_stub c [] = (c2, content c.input c.input_size) ∧
      c2.input_size = 0 ∧ c2.output_size = c.output_size ∧ c2.output = c.output ∧
      c2.output_done = c.output_done ∧ c2.input_done = false ∧
      c2.pending_write = c.pending_write := by
  have hle : c.input_size ≤ 65536 := h_len
  have h32 : toInt32 (c.input_size : Int) = (c.input_size : Int) :=
    toInt32_of_range _ (by omega) (by omega)
  have hz : toSize ((c.input_size : Int) - (c.input_size : Int)) = 0 := by
    rw [sub_self]
    decide
  by_cases hcond : (decide (c.input_size > 0) || c.input_eos) = true
  · refine ⟨pn_connector_consume c (c.input_size : Int), ?_, ?_, rfl, rfl, rfl, h_id, rfl⟩
    · simp only [pn_connector_process_input, h_id, hcond, echo_stub, Bool.not_false, if_true,
        ge_iff_le, Int.natCast_nonneg, h32, List.nil_append]
    · simp only [pn_connector_consume, hz]
  · have h0 : c.input_size = 0 := by
      simp only [Bool.or_eq_true, decide_eq_true_eq, not_or] at hcond
      omega
    have hc2 : (decide (c.input_size > 0) || c.input_eos) = false := by simpa using hcond
    have hnil : content c.input c.input_size = [] := by simp [content, h0]
    refine ⟨c, ?_, h0, rfl, rfl, rfl, h_id, rfl⟩
    rw [hnil]
    simp only [pn_connector_process_input, h_id, hc2, Bool.not_false, if_true,
      Bool.false_eq_true, if_false]

theorem echo_drain (c : pn_connector_t) (b : List Nat) (h_out : c.output_size = 0)
    (h_od : c.output_done = false) (h_len : b.length ≤ IO_BUF_SIZE) :
    ∃ c2, pn_connector_process_output echo_stub c b = (c2, []) ∧
      c2.input_size = c.input_size ∧ c2.output_size = b.length ∧
      c2.output = blit c.output 0 b ∧ c2.input_done = c.input_done ∧
      c2.pending_write = c.pending_write := by
  have havail : pn_connector_available c = IO_BUF_SIZE := by
    simp only [pn_connector_available, h_out]
    exact toSize_io_buf_size
  have hmin : min b.length IO_BUF_SIZE = b.length := Nat.min_eq_left h_len
  have htake : b.take IO_BUF_SIZE = b := List.take_of_length_le h_len
  have hdrop : b.drop IO_BUF_SIZE = [] := List.drop_of_length_le h_len
  have hsz : toSize (((0 : Nat) : Int) + ((b.length : Nat) : Int)) = b.length := by
    have : (((0 : Nat) : Int) + ((b.length : Nat) : Int)) = ((b.length : Nat) : Int) := by simp
    rw [this]
    exact toSize_natCast _ (lt_of_le_of_lt h_len (by decide))
  by_cases hb : b.length = 0
  · refine ⟨{ c with output := blit c.output 0 b, output_size := b.length }, ?_, rfl, rfl, rfl,
      rfl, rfl⟩
    have hne : (b.length != 0) = false := by simpa using hb
    simp only [pn_connector_process_output, h_od, Bool.not_false, if_true, echo_stub, havail,
      hmin, htake, hdrop, h_out, hsz, ge_iff_le, Int.natCast_nonneg, hne,
      Bool.false_eq_true, if_false]
  · refine ⟨{ c with output := blit c.output 0 b, output_size := b.length,
                     status := c.status ||| PN_SEL_WR }, ?_, rfl, rfl, rfl, rfl, rfl⟩
    have hne : (b.length != 0) = true := by simpa using hb
    simp only [pn_connector_process_output, h_od, Bool.not_false, if_true, echo_stub, havail,
      hmin, htake, hdrop, h_out, hsz, ge_iff_le, Int.natCast_nonneg, hne]

theorem echo_steps (recv : Nat → RecvResult) (send : Buffer → Nat → SendResult) (now : Int)
    (c : pn_connector_t) (h_out : c.output_size = 0) (h_pr : c.pending_read = false)
    (h_pw : c.pending_write = false) (h_len : c.input_size ≤ IO_BUF_SIZE)
    (h_id : c.input_done = false) (h_od : c.output_done = false) :
    (process_steps echo_stub recv send now c []).1.input_size = 0 ∧
      (process_steps echo_stub recv send now c []).1.output_size = c.input_size ∧
      (process_steps echo_stub recv send now c []).1.output
        = blit c.output 0 (content c.input c.input_size) ∧
      (process_steps echo_stub recv send now c []).1.input_done = false := by
  have h1 : process_read recv c = c := by simp [process_read, h_pr]
  obtain ⟨c2, e2, hi2, ho2, hb2, hd2, hid2, hw2⟩ := echo_feed c h_len h_id
  have e3 : process_tick echo_stub now (c2, content c.input c.input_size)
      = ({ c2 with wakeup := 0 }, content c.input c.input_size) := by
    simp [process_tick, pn_connector_tick, echo_stub]
  obtain ⟨c4, e4, hi4, ho4, hb4, hid4, hw4⟩ :=
    echo_drain { c2 with wakeup := 0 } (content c.input c.input_size)
      (by simpa [h_out] using ho2) (by simpa [h_od] using hd2)
      (by rw [content_length]; exact h_len)
  have e5 : process_write echo_stub send (c4, []) = (c4, []) := by
    have : c4.pending_write = false := by rw [hw4]; simpa [h_pw] using hw2
    simp [process_write, this]
  have hs : process_steps echo_stub recv send now c [] = (c4, []) := by
    simp only [process_steps, h1, e2, e3, e4, e5]
  rw [hs]
  refine ⟨?_, ?_, ?_, ?_⟩
  · rw [hi4]; exact hi2
  · rw [ho4, content_length]
  · rw [hb4]; simp [hb2]
  · rw [hid4]; exact hid2

/-- C7, as amended: for every content `b` of at most 65536 bytes in the input buffer
of a connector that is not closed, whose `input_done` and `output_done` flags are
clear, whose output buffer is empty and whose `pending_read` and `pending_write`
flags are clear, with the echo stub as transport (holding no bytes yet), after one
`pn_connector_process` the input buffer is empty and the output buffer holds exactly
`b`, byte for byte and in order. -/
theorem echo_round_trip (recv : Nat → RecvResult) (send : Buffer → Nat → SendResult)
    (now : Int) (d : pn_driver_t) (c : pn_connector_t) (h_open : c.closed = false)
    (h_out : c.output_size = 0) (h_pr : c.pending_read = false)
    (h_pw : c.pending_write = false) (h_len : c.input_size ≤ IO_BUF_SIZE)
    (h_id : c.input_done = false) (h_od : c.output_done = false) :
    (pn_connector_process echo_stub recv send now d c []).2.1.input_size = 0 ∧
      (pn_connector_process echo_stub recv send now d c []).2.1.output_size = c.input_size ∧
      content (pn_connector_process echo_stub recv send now d c []).2.1.output
          (pn_connector_process echo_stub recv send now d c []).2.1.output_size
        = content c.input c.input_size := by
  obtain ⟨hi, ho, hb, hid⟩ := echo_steps recv send now c h_out h_pr h_pw h_len h_id h_od
  have hnd : close_due (process_steps echo_stub recv send now c []).1 = false := by
    simp [close_due, hid]
  have hp : pn_connector_process echo_stub recv send now d c []
      = (d, (process_steps echo_stub recv send now c []).1,
          (process_steps echo_stub recv send now c []).2) := by
    simp [pn_connector_process, h_open, hnd]
  rw [hp]
  refine ⟨hi, ho, ?_⟩
  dsimp only
  rw [ho, hb]
  have := content_blit c.output (content c.input c.input_size)
  rwa [content_length] at this

theorem eof_read (recv : Nat → RecvResult) (c : pn_connector_t) (h_pr : c.pending_read = true)
    (h_in : c.input_size = 0) (h_recv : (recv IO_BUF_SIZE).n = 0) :
    (process_read recv c).input_eos = true ∧ (process_read recv c).input_size = 0 ∧
      (process_read recv c).output_size = c.output_size ∧
      (process_read recv c).input_done = c.input_done ∧
      (process_read recv c).output_done = c.output_done ∧
      (process_read recv c).input = blit c.input 0 (recv IO_BUF_SIZE).data := by
  have hcap : toSize ((IO_BUF_SIZE : Int) - ((c.input_size : Nat) : Int)) = IO_BUF_SIZE := by
    rw [h_in]
    exact toSize_io_buf_size
  have hr : process_read recv c =
      { c with input := blit c.input c.input_size (recv IO_BUF_SIZE).data,
               status := clear_bits c.status PN_SEL_RD, input_eos := true,
               pending_read := false } := by
    simp [process_read, h_pr, pn_connector_read, hcap, h_recv]
  rw [hr]
  refine ⟨rfl, h_in, rfl, rfl, rfl, ?_⟩
  show blit c.input c.input_size (recv IO_BUF_SIZE).data = blit c.input 0 (recv IO_BUF_SIZE).data
  rw [h_in]

theorem eof_feed {σ : Type} (T : Transport σ) (c : pn_connector_t) (t : σ)
    (h_eos : c.input_eos = true) (h_in : c.input_size = 0)
    (h_feed : c.input_done = false → (T.input t c.input 0).1 < 0) :
    (pn_connector_process_input T c t).1.input_eos = true ∧
      (pn_connector_process_input T c t).1.input_done = true ∧
      (pn_connector_process_input T c t).1.output_size = c.output_size ∧
      (pn_connector_process_input T c t).1.output_done = c.output_done ∧
      (pn_connector_process_input T c t).2
        = (if c.input_done = true then t else (T.input t c.input 0).2) := by
  by_cases hd : c.input_done = true
  · have hr : pn_connector_process_input T c t = (c, t) := by
      simp [pn_connector_process_input, hd]
    rw [hr]
    exact ⟨h_eos, hd, rfl, rfl, by simp [hd]⟩
  · have hd2 : c.input_done = false := by simpa using hd
    have hneg : ¬ ((T.input t c.input 0).1 ≥ 0) := by
      have := h_feed hd2
      omega
    have hr : pn_connector_process_input T c t =
        ({ pn_connector_consume c (toInt32 ((0 : Nat) : Int)) with input_done := true },
          (T.input t c.input 0).2) := by
      simp only [pn_connector_process_input, hd2, h_eos, h_in, Bool.not_false, if_true,
        Bool.or_true, hneg, if_false]
    rw [hr]
    exact ⟨h_eos, rfl, rfl, rfl, by simp [hd2]⟩

theorem eof_drain {σ : Type} (T : Transport σ) (c : pn_connector_t) (t : σ)
    (h_out : c.output_size = 0)
    (h_drain : c.output_done = false → (T.output t IO_BUF_SIZE).1.n < 0) :
    (pn_connector_process_output T c t).1.output_done = true ∧
      (pn_connector_process_output T c t).1.output_size = 0 ∧
      (pn_connector_process_output T c t).1.input_eos = c.input_eos ∧
      (pn_connector_process_output T c t).1.input_done = c.input_done ∧
      (pn_connector_process_output T c t).1.pending_write = c.pending_write := by
  have hav : pn_connector_available c = IO_BUF_SIZE := by
    simp only [pn_connector_available, h_out]
    exact toSize_io_buf_size
  by_cases hd : c.output_done = true
  · have hr : pn_connector_process_output T c t = (c, t) := by
      simp [pn_connector_process_output, hd, h_out]
    rw [hr]
    exact ⟨hd, h_out, rfl, rfl, rfl⟩
  · have hd2 : c.output_done = false := by simpa using hd
    have hneg : ¬ ((T.output t IO_BUF_SIZE).1.n ≥ 0) := by
      have := h_drain hd2
      omega
    have hr : pn_connector_process_output T c t =
        ({ c with output := blit c.output c.output_size (T.output t IO_BUF_SIZE).1.data,
                  output_done := true },
          (T.output t IO_BUF_SIZE).2) := by
      simp only [pn_connector_process_output, hav, hd2, Bool.not_false, if_true, hneg, if_false,
        h_out, bne_self_eq_false, Bool.false_eq_true]
    rw [hr]
    exact ⟨rfl, h_out, rfl, rfl, rfl⟩

theorem eof_write (send : Buffer → Nat → SendResult) (c : pn_connector_t)
    (h_out : c.output_size = 0) :
    (pn_connector_write send c).output_size = 0 ∧
      (pn_connector_write send c).output_done = c.output_done ∧
      (pn_connector_write send c).input_eos = c.input_eos ∧
      (pn_connector_write send c).input_done = c.input_done := by
  have hr : pn_connector_write send c = { c with status := clear_bits c.status PN_SEL_WR } := by
    simp [pn_connector_write, h_out]
  rw [hr]
  exact ⟨h_out, rfl, rfl, rfl⟩

theorem eof_steps {σ : Type} (T : Transport σ) (recv : Nat → RecvResult)
    (send : Buffer → Nat → SendResult) (now : Int) (c : pn_connector_t) (t : σ)
    (h_pr : c.pending_read = true) (h_in : c.input_size = 0) (h_out : c.output_size = 0)
    (h_recv : (recv IO_BUF_SIZE).n = 0)
    (h_feed : c.input_done = false →
      (T.input t (blit c.input 0 (recv IO_BUF_SIZE).data) 0).1 < 0)
    (h_drain : c.output_done = false →
      (T.output (T.tick (if c.input_done = true then t
          else (T.input t (blit c.input 0 (recv IO_BUF_SIZE).data) 0).2) now).2
        IO_BUF_SIZE).1.n < 0) :
    (process_steps T recv send now c t).1.input_eos = true ∧
      (process_steps T recv send now c t).1.input_done = true ∧
      (process_steps T recv send now c t).1.output_done = true ∧
      (process_steps T recv send now c t).1.output_size = 0 := by
  obtain ⟨a1, a2, a3, a4, a5, a6⟩ := eof_read recv c h_pr h_in h_recv
  obtain ⟨b1, b2, b3, b4, b5⟩ :=
    eof_feed T (process_read recv c) t a1 a2 (by rw [a4, a6]; exact h_feed)
  rw [a4, a6] at b5
  have b3' : (pn_connector_process_input T (process_read recv c) t).1.output_size = 0 := by
    rw [b3, a3, h_out]
  have hd3 : (process_tick T now (pn_connector_process_input T (process_read recv c) t)).1.output_done
      = c.output_done := b4.trans a5
  have hs3 : (process_tick T now (pn_connector_process_input T (process_read recv c) t)).2
      = (T.tick (if c.input_done = true then t
          else (T.input t (blit c.input 0 (recv IO_BUF_SIZE).data) 0).2) now).2 := by
    simp only [process_tick, pn_connector_tick, b5]
  obtain ⟨c1, c2, c3, c4, _⟩ := eof_drain T
    (process_tick T now (pn_connector_process_input T (process_read recv c) t)).1
    (process_tick T now (pn_connector_process_input T (process_read recv c) t)).2
    b3' (by rw [hd3, hs3]; exact h_drain)
  have c3' : (pn_connector_process_output T
      (process_tick T now (pn_connector_process_input T (process_read recv c) t)).1
      (process_tick T now (pn_connector_process_input T (process_read recv c) t)).2).1.input_eos
        = true := by rw [c3]; exact b1
  have c4' : (pn_connector_process_output T
      (process_tick T now (pn_connector_process_input T (process_read recv c) t)).1
      (process_tick T now (pn_connector_process_input T (process_read recv c) t)).2).1.input_done
        = true := by rw [c4]; exact b2
  simp only [process_steps, process_write]
  split_ifs with hw
  · obtain ⟨w1, w2, w3, w4⟩ := eof_write send _ c2
    have wd : ({ pn_connector_write send (pn_connector_process_output T
          (process_tick T now (pn_connector_process_input T (process_read recv c) t)).1
          (process_tick T now (pn_connector_process_input T (process_read recv c) t)).2).1
        with pending_write := false } : pn_connector_t).output_done = true := w2.trans c1
    obtain ⟨e1, e2, e3, e4, _⟩ := eof_drain T
      { pn_connector_write send (pn_connector_process_output T
          (process_tick T now (pn_connector_process_input T (process_read recv c) t)).1
          (process_tick T now (pn_connector_process_input T (process_read recv c) t)).2).1
        with pending_write := false }
      (pn_connector_process_output T
          (process_tick T now (pn_connector_process_input T (process_read recv c) t)).1
          (process_tick T now (pn_connector_process_input T (process_read recv c) t)).2).2
      w1 (fun hf => by rw [wd] at hf; exact absurd hf (by decide))
    refine ⟨?_, ?_, e1, e2⟩
    · rw [e3]; exact w3.trans c3'
    · rw [e4]; exact w4.trans c4'
  · exact ⟨c3', c4', c1, c2⟩

/-- C8, as amended: for every connector that is not closed, on which `pending_read`
is set, whose input and output buffers are empty, whose receive returns zero bytes,
and whose transport answers the end-of-input feed of this call (made when `input_done`
is not set already, on the transport as the call finds it) and the drain of this call
(made when `output_done` is not set already, on the transport after that feed and the
tick) with a negative result, one call of `pn_connector_process` leaves `input_eos`,
`input_done`, `output_done` and `closed` all true.  Nothing is assumed of the answers
the transport would give in any other state. -/
theorem peer_close_closes {σ : Type} (T : Transport σ) (recv : Nat → RecvResult)
    (send : Buffer → Nat → SendResult) (now : Int) (d : pn_driver_t) (c : pn_connector_t)
    (t : σ) (h_open : c.closed = false) (h_pr : c.pending_read = true)
    (h_in : c.input_size = 0) (h_out : c.output_size = 0)
    (h_recv : (recv IO_BUF_SIZE).n = 0)
    (h_feed : c.input_done = false →
      (T.input t (blit c.input 0 (recv IO_BUF_SIZE).data) 0).1 < 0)
    (h_drain : c.output_done = false →
      (T.output (T.tick (if c.input_done = true then t
          else (T.input t (blit c.input 0 (recv IO_BUF_SIZE).data) 0).2) now).2
        IO_BUF_SIZE).1.n < 0) :
    (pn_connector_process T recv send now d c t).2.1.input_eos = true ∧
      (pn_connector_process T recv send now d c t).2.1.input_done = true ∧
      (pn_connector_process T recv send now d c t).2.1.output_done = true ∧
      (pn_connector_process T recv send now d c t).2.1.closed = true := by
  obtain ⟨h1, h2, h3, h4⟩ := eof_steps T recv send now c t h_pr h_in h_out h_recv h_feed h_drain
  have hdue : close_due (process_steps T recv send now c t).1 = true := by
    simp [close_due, h2, h3, h4]
  have hp : pn_connector_process T recv send now d c t =
      ((pn_connector_close d (process_steps T recv send now c t).1).1,
        (pn_connector_close d (process_steps T recv send now c t).1).2,
        (process_steps T recv send now c t).2) := by
    simp [pn_connector_process, h_open, hdue]
  rw [hp]
  exact ⟨h1, h2, h3, rfl⟩

/-! ## Concrete runs -/

/-- C4 at the fourth call on a driver with two listeners and eight connectors, and
the first seven calls evaluated: the connectors returned are the readable one, the
closed one, the one at end-of-input, the one with buffered input, the one whose timer
is due and the writable one, in list order, then null; the two quiet connectors are
skipped.  Of the listeners the pending one is returned, then null. -/
theorem cursor_retrieval_after_distribute_witness :
    (busy_driver.listeners.map (fun l => l.id)).Nodup ∧
      (busy_driver.connectors.map (fun c => c.id)).Nodup ∧
      ((pn_driver_connector (after_connector_calls 3 (pn_driver_wait_3 10 busy_driver))).2
          = (((pn_driver_wait_3 10 busy_driver).connectors.filter
              (fun c => decide (c.closed = true ∨ c.pending_read = true ∨
                c.pending_write = true ∨ c.pending_tick = true ∨ 0 < c.input_size ∨
                c.input_eos = true))).map (fun c => c.id))[3]? ∧
        (pn_driver_listener (after_listener_calls 3 (pn_driver_wait_3 10 busy_driver))).2
          = (((pn_driver_wait_3 10 busy_driver).listeners.filter
              (fun l => l.pending = true)).map (fun l => l.id))[3]?) ∧
      (List.range 7).map (fun k =>
          (pn_driver_connector (after_connector_calls k (pn_driver_wait_3 10 busy_driver))).2)
        = [some 21, some 22, some 23, some 24, some 26, some 27, none] ∧
      (List.range 3).map (fun k =>
          (pn_driver_listener (after_listener_calls k (pn_driver_wait_3 10 busy_driver))).2)
        = [some 11, none, none] :=
  ⟨by decide, by decide,
    cursor_retrieval_after_distribute 10 busy_driver (by decide) (by decide) 3,
    by decide, by decide⟩

/-- Two connectors of which one has pending data: the busy one is returned once,
then null; likewise for the two listeners. -/
theorem one_busy_connector_scenario :
    (pn_driver_connector (pn_driver_wait_3 0 sample_driver)).2 = some 21 ∧
      (pn_driver_connector (after_connector_calls 1 (pn_driver_wait_3 0 sample_driver))).2
        = none ∧
      (pn_driver_connector (after_connector_calls 2 (pn_driver_wait_3 0 sample_driver))).2
        = none ∧
      (pn_driver_listener (pn_driver_wait_3 0 sample_driver)).2 = some 11 ∧
      (pn_driver_listener (after_listener_calls 1 (pn_driver_wait_3 0 sample_driver))).2
        = none := by
  decide

/-- C5 at five buffered bytes of which the send takes two. -/
theorem pn_connector_write_keeps_rest_witness :
    (pn_connector_write (send_some 2)
        buffered_connector).output_size
        = 5 - 2 ∧
      (∀ i, i < 5 - 2 →
        (pn_connector_write (send_some 2)
          buffered_connector).output i
          = buffer_of [1, 2, 3, 4, 5] (2 + i)) ∧
      content (pn_connector_write (send_some 2)
          buffered_connector).output
        (pn_connector_write (send_some 2)
          buffered_connector).output_size
        = (content (buffer_of [1, 2, 3, 4, 5]) 5).drop 2 :=
  pn_connector_write_keeps_rest (send_some 2)
    buffered_connector 2
    (by decide) (by decide) rfl (by decide)

/-- C7, as amended, at a connector holding the bytes `1, 2, 3`. -/
theorem echo_round_trip_witness :
    (pn_connector_process echo_stub recv_none send_none 0 (pn_driver 3 4) fed_connector
        []).2.1.input_size = 0 ∧
      (pn_connector_process echo_stub recv_none send_none 0 (pn_driver 3 4) fed_connector
        []).2.1.output_size = fed_connector.input_size ∧
      content (pn_connector_process echo_stub recv_none send_none 0 (pn_driver 3 4)
          fed_connector []).2.1.output
          (pn_connector_process echo_stub recv_none send_none 0 (pn_driver 3 4) fed_connector
            []).2.1.output_size
        = content fed_connector.input fed_connector.input_size :=
  echo_round_trip recv_none send_none 0 (pn_driver 3 4) fed_connector (by decide) (by decide)
    (by decide) (by decide) (by decide) (by decide) (by decide)

/-- The echo round trip evaluated: the output buffer starts with `1, 2, 3`. -/
theorem echo_round_trip_concrete :
    content (pn_connector_process echo_stub recv_none send_none 0 (pn_driver 3 4)
          fed_connector []).2.1.output 3 = [1, 2, 3] := by
  decide

/-- C7 as stated fails: a connector that is not closed, with empty output buffer and
both pending flags clear, holds `1, 2, 3` in its input buffer, but `input_done` is set;
after `pn_connector_process` with the echo stub the three bytes are still in the input
buffer and the output buffer is empty.  With `output_done` set instead, the bytes are
fed to the stub but nothing is drained: the output buffer stays empty. -/
theorem echo_round_trip_input_done :
    stalled_connector.closed = false ∧ stalled_connector.output_size = 0 ∧
      stalled_connector.pending_read = false ∧ stalled_connector.pending_write = false ∧
      stalled_connector.input_size ≤ IO_BUF_SIZE ∧
      content stalled_connector.input stalled_connector.input_size = [1, 2, 3] ∧
      (pn_connector_process echo_stub recv_none send_none 0 (pn_driver 3 4) stalled_connector
        []).2.1.input_size = 3 ∧
      (pn_connector_process echo_stub recv_none send_none 0 (pn_driver 3 4) stalled_connector
        []).2.1.output_size = 0 ∧
      muted_connector.closed = false ∧ muted_connector.output_size = 0 ∧
      muted_connector.pending_read = false ∧ muted_connector.pending_write = false ∧
      muted_connector.input_size ≤ IO_BUF_SIZE ∧
      content muted_connector.input muted_connector.input_size = [1, 2, 3] ∧
      (pn_connector_process echo_stub recv_none send_none 0 (pn_driver 3 4) muted_connector
        []).2.1.input_size = 0 ∧
      (pn_connector_process echo_stub recv_none send_none 0 (pn_driver 3 4) muted_connector
        []).2.1.output_size = 0 := by
  decide

/-- C8, as amended, at a fresh readable connector whose peer has closed, with a
transport that answers with a negative result only the one feed and the one drain of
this call. -/
theorem peer_close_closes_witness :
    (readable_connector.input_done = false →
        (closing_stub.input 0
          (blit readable_connector.input 0 (recv_eof IO_BUF_SIZE).data) 0).1 < 0) ∧
      (closing_stub.input 1 readable_connector.input 0).1 = 0 ∧
      (closing_stub.output 0 IO_BUF_SIZE).1.n = 0 ∧
      (pn_connector_process closing_stub recv_eof send_none 0 (pn_driver 3 4)
        readable_connector 0).2.1.input_eos = true ∧
      (pn_connector_process closing_stub recv_eof send_none 0 (pn_driver 3 4)
        readable_connector 0).2.1.input_done = true ∧
      (pn_connector_process closing_stub recv_eof send_none 0 (pn_driver 3 4)
        readable_connector 0).2.1.output_done = true ∧
      (pn_connector_process closing_stub recv_eof send_none 0 (pn_driver 3 4)
        readable_connector 0).2.1.closed = true :=
  ⟨fun _ => by decide, by decide, by decide,
    peer_close_closes closing_stub recv_eof send_none 0 (pn_driver 3 4) readable_connector 0
      (by decide) (by decide) (by decide) (by decide) (by decide)
      (fun _ => by decide) (fun _ => by decide)⟩

/-- C8 as stated fails: on a connector already closed by `pn_connector_close`, with
`pending_read` still set and both buffers empty, `pn_connector_process` returns at
once, so `input_eos`, `input_done` and `output_done` stay false. -/
theorem peer_close_on_closed_connector :
    closed_readable_connector.pending_read = true ∧
      closed_readable_connector.input_size = 0 ∧ closed_readable_connector.output_size = 0 ∧
      (recv_eof IO_BUF_SIZE).n = 0 ∧
      (∀ s buf, (finished_stub.input s buf 0).1 < 0) ∧
      (∀ s cap, (finished_stub.output s cap).1.n < 0) ∧
      (pn_connector_process finished_stub recv_eof send_none 0 (pn_driver 3 4)
        closed_readable_connector ()).2.1.input_eos = false ∧
      (pn_connector_process finished_stub recv_eof send_none 0 (pn_driver 3 4)
        closed_readable_connector ()).2.1.input_done = false ∧
      (pn_connector_process finished_stub recv_eof send_none 0 (pn_driver 3 4)
        closed_readable_connector ()).2.1.output_done = false :=
  ⟨by decide, by decide, by decide, by decide, fun _ _ => by simp [finished_stub], fun _ _ => by simp [finished_stub],
    by decide, by decide, by decide⟩

/-- C6 at a fresh readable connector whose peer has closed. -/
theorem pn_connector_process_closes_iff_witness :
    ((pn_connector_process finished_stub recv_eof send_none 0 (pn_driver 3 4)
        readable_connector ()).2.1.closed = true ↔
        ((process_steps finished_stub recv_eof send_none 0 readable_connector ()).1.output_size
            = 0 ∧
          (process_steps finished_stub recv_eof send_none 0 readable_connector ()).1.input_done
            = true ∧
          (process_steps finished_stub recv_eof send_none 0 readable_connector ()).1.output_done
            = true)) ∧
      ((pn_connector_process finished_stub recv_eof send_none 0 (pn_driver 3 4)
        readable_connector ()).2.1.closed = true →
        (pn_connector_process finished_stub recv_eof send_none 0 (pn_driver 3 4)
          readable_connector ()).1.closed_count = (pn_driver 3 4).closed_count + 1) ∧
      ((pn_connector_process finished_stub recv_eof send_none 0 (pn_driver 3 4)
        readable_connector ()).2.1.closed = false →
        (pn_connector_process finished_stub recv_eof send_none 0 (pn_driver 3 4)
          readable_connector ()).1.closed_count = (pn_driver 3 4).closed_count) :=
  pn_connector_process_closes_iff finished_stub recv_eof send_none 0 (pn_driver 3 4)
    readable_connector () (by decide)

/-! ## Build: which descriptors enter the interest sets -/

theorem listeners_phase (n : Nat) (ctrl1 : Nat) (h : n ≤ FD_SETSIZE) :
    rebuild_listeners n ((List.range n).map (fun i => { id := i, pending := false, fd := i + 1 }))
        (rebuild_start (pn_driver 0 ctrl1)) =
      some { wakeup := 0, overflow := false, r_avail := FD_SETSIZE - n, w_avail := FD_SETSIZE,
             readfds := 0 :: ((List.range n).map (fun i => i + 1)).take (FD_SETSIZE - 1),
             writefds := [] } := by
  have hlen : ((List.range n).map
      (fun i => ({ id := i, pending := false, fd := i + 1 } : pn_listener_t))).length = n := by
    simp
  have hfit := rebuild_listeners_fit
    ((List.range n).map (fun i => ({ id := i, pending := false, fd := i + 1 } : pn_listener_t)))
    (rebuild_start (pn_driver 0 ctrl1)) (by rw [hlen]; simpa [rebuild_start] using h)
  rw [hlen] at hfit
  have hstart : (rebuild_start (pn_driver 0 ctrl1)).readfds = [0] := by
    simp [rebuild_start, pn_driver, FD_SET, FD_ZERO, FD_SETSIZE]
  have hfold : ((List.range n).map
      (fun i => ({ id := i, pending := false, fd := i + 1 } : pn_listener_t))).foldl
        (fun s l => FD_SET l.fd s) [0] =
      [0] ++ ((List.range n).map (fun i => i + 1)).take (FD_SETSIZE - ([0] : fd_set).length) := by
    have hmap : ((List.range n).map
        (fun i => ({ id := i, pending := false, fd := i + 1 } : pn_listener_t))).foldl
          (fun s l => FD_SET l.fd s) [0] =
        ((List.range n).map (fun i => i + 1)).foldl (fun s x => FD_SET x s) [0] := by
      simp [List.foldl_map]
    rw [hmap]
    apply FD_SET_foldl_fresh
    · exact (List.nodup_range n).map (fun a b hab => by simpa using hab)
    · intro x hx
      simp only [List.mem_map, List.mem_range] at hx
      obtain ⟨i, _, rfl⟩ := hx
      simp
    · simp [FD_SETSIZE]
  rw [hfit, hstart, hfold]
  simp [rebuild_start, FD_ZERO]

/-- C11, with the read-interest set full: with 2047 listeners and one fresh connector
(read and write interest, not closed), all descriptors distinct, `pn_driver_rebuild`
ends with the overflow flag clear and the connector's descriptor is in the
write-interest set but not in the read-interest set, whose 2048 slots are taken by
the wake channel and the listeners. -/
theorem pn_driver_rebuild_drops_reader :
    ∃ d1, pn_driver_rebuild (listeners_connector_driver 2047) = some d1 ∧
      d1.overflow = false ∧ (descriptors (listeners_connector_driver 2047)).Nodup ∧
      (listeners_connector_driver 2047).connectors = [new_connector 2047 2049] ∧
      (new_connector 2047 2049).closed = false ∧
      has_bit (new_connector 2047 2049).status PN_SEL_RD = true ∧
      has_bit (new_connector 2047 2049).status PN_SEL_WR = true ∧
      FD_ISSET (new_connector 2047 2049).fd d1.readfds = false ∧
      FD_ISSET (new_connector 2047 2049).fd d1.writefds = true ∧
      d1.readfds.length = FD_SETSIZE := by
  have hph := listeners_phase 2047 2048 (by decide)
  have hnot : (2049 : Nat) ∉ (0 :: ((List.range 2047).map (fun i => i + 1)).take (FD_SETSIZE - 1)) := by
    simp only [List.mem_cons, List.mem_take_iff_getElem]
    simp [FD_SETSIZE]
  have hlen : (0 :: ((List.range 2047).map (fun i => i + 1)).take (FD_SETSIZE - 1)).length
      = FD_SETSIZE := by
    simp [FD_SETSIZE]
  have hset : FD_SET 2049 (0 :: ((List.range 2047).map (fun i => i + 1)).take (FD_SETSIZE - 1))
      = 0 :: ((List.range 2047).map (fun i => i + 1)).take (FD_SETSIZE - 1) := by
    unfold FD_SET
    rw [if_neg hnot, hlen, if_neg (lt_irrefl _)]
  have hw : FD_SET 2049 ([] : fd_set) = [2049] := by
    simp [FD_SET, FD_SETSIZE]
  have hrd : has_bit (new_connector 2047 2049).status PN_SEL_RD = true := by decide
  have hwr : has_bit (new_connector 2047 2049).status PN_SEL_WR = true := by decide
  have hr1 : FD_SETSIZE - 2047 = 1 := by decide
  have hreb : pn_driver_rebuild (listeners_connector_driver 2047) =
      some { listeners_connector_driver 2047 with
        wakeup := 0, overflow := false,
        readfds := 0 :: ((List.range 2047).map (fun i => i + 1)).take (FD_SETSIZE - 1),
        writefds := [2049] } := by
    have hl : (listeners_connector_driver 2047).listeners
        = (List.range 2047).map (fun i => { id := i, pending := false, fd := i + 1 }) := by
      simp [listeners_connector_driver, listeners_driver]
    have hlc : (listeners_connector_driver 2047).listener_count = 2047 := rfl
    have hcs : (listeners_connector_driver 2047).connectors = [new_connector 2047 2049] := rfl
    have hcc : (listeners_connector_driver 2047).connector_count = 1 := rfl
    have hst : rebuild_start (listeners_connector_driver 2047)
        = rebuild_start (pn_driver 0 2048) := by
      simp [rebuild_start, listeners_connector_driver, listeners_driver, pn_driver]
    have hcl : (new_connector 2047 2049).closed = false := rfl
    have hfd : (new_connector 2047 2049).fd = 2049 := rfl
    have hwk : (new_connector 2047 2049).wakeup = 0 := rfl
    simp only [pn_driver_rebuild, hl, hlc, hcs, hcc, hst, hph, rebuild_connectors, hcl, hrd, hwr,
      hfd, hwk, hset, hw, hr1, Bool.not_false, if_true, Bool.true_and]
    simp [pn_timestamp_min, FD_SETSIZE]
  refine ⟨_, hreb, rfl, ?_, rfl, rfl, hrd, hwr, ?_, ?_, ?_⟩
  · simp only [descriptors, listeners_connector_driver, listeners_driver, pn_driver,
      new_connector, List.map_map, List.map_cons, List.map_nil]
    rw [List.nodup_cons]
    constructor
    · simp
    · rw [List.nodup_append]
      refine ⟨?_, List.nodup_singleton _, ?_⟩
      · exact (List.nodup_range 2047).map (fun a b hab => by simpa using hab)
      · intro x hx hy
        simp only [List.mem_map, List.mem_range, Function.comp] at hx
        simp only [List.mem_singleton] at hy
        obtain ⟨i, hi, rfl⟩ := hx
        omega
  · simp only [FD_ISSET, decide_eq_false_iff_not]
    exact hnot
  · simp [FD_ISSET, new_connector]
  · exact hlen

/-! ## Connector: consuming an activation -/

/-- C12: for each direction `pn_connector_activated` returns the value the pending
flag of that direction had before the call and leaves that flag false, so that a
repeated call returns false; the pending flag of the other direction is unchanged. -/
theorem pn_connector_activated_reads_and_clears (c : pn_connector_t) :
    ((pn_connector_activated c .PN_CONNECTOR_READABLE).2 = c.pending_read ∧
        (pn_connector_activated c .PN_CONNECTOR_READABLE).1.pending_read = false ∧
        (pn_connector_activated (pn_connector_activated c .PN_CONNECTOR_READABLE).1
          .PN_CONNECTOR_READABLE).2 = false ∧
        (pn_connector_activated c .PN_CONNECTOR_READABLE).1.pending_write
          = c.pending_write) ∧
      ((pn_connector_activated c .PN_CONNECTOR_WRITABLE).2 = c.pending_write ∧
        (pn_connector_activated c .PN_CONNECTOR_WRITABLE).1.pending_write = false ∧
        (pn_connector_activated (pn_connector_activated c .PN_CONNECTOR_WRITABLE).1
          .PN_CONNECTOR_WRITABLE).2 = false ∧
        (pn_connector_activated c .PN_CONNECTOR_WRITABLE).1.pending_read
          = c.pending_read) :=
  ⟨⟨rfl, rfl, rfl, rfl⟩, ⟨rfl, rfl, rfl, rfl⟩⟩

/-! ## Connector: occupied lengths stay within the capacity -/

theorem toSize_eq (x : Int) (n : Nat) (h : x = (n : Int)) (hn : n ≤ IO_BUF_SIZE) :
    toSize x = n := by
  rw [h]
  exact toSize_natCast n (lt_of_le_of_lt hn (by decide))

theorem pn_connector_read_sizes (recv : Nat → RecvResult) (c : pn_connector_t)
    (hr : ∀ cap, (recv cap).n ≤ (cap : Int)) (h : sizes_ok c) :
    sizes_ok (pn_connector_read recv c) := by
  obtain ⟨hi, ho⟩ := h
  have hi' : c.input_size ≤ 65536 := hi
  have hcap : toSize ((IO_BUF_SIZE : Int) - (c.input_size : Int)) = IO_BUF_SIZE - c.input_size :=
    toSize_eq _ _ (by simp only [IO_BUF_SIZE]; omega) (Nat.sub_le _ _)
  have hn := hr (toSize ((IO_BUF_SIZE : Int) - (c.input_size : Int)))
  rw [hcap] at hn
  simp only [pn_connector_read, hcap]
  split_ifs with h1 h2 h3
  · exact ⟨hi, ho⟩
  · exact ⟨hi, ho⟩
  · exact ⟨hi, ho⟩
  · refine ⟨?_, ho⟩
    show toSize ((c.input_size : Int) + (recv (IO_BUF_SIZE - c.input_size)).n) ≤ IO_BUF_SIZE
    have hle : (recv (IO_BUF_SIZE - c.input_size)).n ≤ ((IO_BUF_SIZE - c.input_size : Nat) : Int) := hn
    have hpos : 0 ≤ (recv (IO_BUF_SIZE - c.input_size)).n := by omega
    obtain ⟨m, hm⟩ := Int.eq_ofNat_of_zero_le hpos
    have hm2 : m ≤ IO_BUF_SIZE - c.input_size := by
      rw [hm] at hle
      exact_mod_cast hle
    have hsum : c.input_size + m ≤ IO_BUF_SIZE := by
      simp only [IO_BUF_SIZE] at hm2 ⊢
      omega
    rw [hm, toSize_eq _ (c.input_size + m) (by push_cast; rfl) hsum]
    exact hsum

theorem pn_connector_consume_sizes (c : pn_connector_t) (m : Nat) (hm : m ≤ c.input_size)
    (h : sizes_ok c) : sizes_ok (pn_connector_consume c (toInt32 (m : Int))) := by
  obtain ⟨hi, ho⟩ := h
  have hi' : c.input_size ≤ 65536 := hi
  have h32 : toInt32 (m : Int) = (m : Int) := toInt32_of_range _ (by omega) (by omega)
  have hsz : toSize ((c.input_size : Int) - (m : Int)) = c.input_size - m :=
    toSize_eq _ _ (by omega) (le_trans (Nat.sub_le _ _) hi)
  refine ⟨?_, ho⟩
  show toSize ((c.input_size : Int) - toInt32 (m : Int)) ≤ IO_BUF_SIZE
  rw [h32, hsz]
  exact le_trans (Nat.sub_le _ _) hi

theorem pn_connector_process_input_sizes {σ : Type} (T : Transport σ) (c : pn_connector_t)
    (t : σ) (hT : ∀ s buf size, (T.input s buf size).1 ≤ (size : Int)) (h : sizes_ok c) :
    sizes_ok (pn_connector_process_input T c t).1 := by
  simp only [pn_connector_process_input]
  split_ifs with h1 h2 h3
  · have hle := hT t c.input c.input_size
    obtain ⟨m, hm⟩ := Int.eq_ofNat_of_zero_le h3
    have hm2 : m ≤ c.input_size := by
      rw [hm] at hle
      exact_mod_cast hle
    show sizes_ok (pn_connector_consume c (toInt32 (T.input t c.input c.input_size).1))
    rw [hm]
    exact pn_connector_consume_sizes c m hm2 h
  · have := pn_connector_consume_sizes c c.input_size (le_refl _) h
    exact ⟨this.1, this.2⟩
  · exact h
  · exact h

theorem pn_connector_process_output_sizes {σ : Type} (T : Transport σ) (c : pn_connector_t)
    (t : σ) (hT : ∀ s cap, (T.output s cap).1.n ≤ (cap : Int)) (h : sizes_ok c) :
    sizes_ok (pn_connector_process_output T c t).1 := by
  obtain ⟨hi, ho⟩ := h
  have ho' : c.output_size ≤ 65536 := ho
  have hav : pn_connector_available c = IO_BUF_SIZE - c.output_size :=
    toSize_eq _ _ (by simp only [IO_BUF_SIZE]; omega) (Nat.sub_le _ _)
  have hn := hT t (pn_connector_available c)
  rw [hav] at hn
  have key : ∀ n : Int, 0 ≤ n → n ≤ ((IO_BUF_SIZE - c.output_size : Nat) : Int) →
      toSize ((c.output_size : Int) + n) ≤ IO_BUF_SIZE := by
    intro n h0 hle
    obtain ⟨m, hm⟩ := Int.eq_ofNat_of_zero_le h0
    have hm2 : m ≤ IO_BUF_SIZE - c.output_size := by
      rw [hm] at hle
      exact_mod_cast hle
    have hsum : c.output_size + m ≤ IO_BUF_SIZE := by
      simp only [IO_BUF_SIZE] at hm2 ⊢
      omega
    rw [hm, toSize_eq _ (c.output_size + m) (by push_cast; rfl) hsum]
    exact hsum
  simp only [pn_connector_process_output, hav]
  split_ifs with h1 h2
  · exact ⟨hi, key _ h2 hn⟩
  · exact ⟨hi, key _ h2 hn⟩
  · exact ⟨hi, ho⟩
  · exact ⟨hi, ho⟩
  · exact ⟨hi, ho⟩
  · exact ⟨hi, ho⟩

theorem pn_connector_write_sizes (send : Buffer → Nat → SendResult) (c : pn_connector_t)
    (hs : ∀ buf len, (send buf len).n ≤ (len : Int)) (h : sizes_ok c) :
    sizes_ok (pn_connector_write send c) := by
  obtain ⟨hi, ho⟩ := h
  have hle := hs c.output c.output_size
  have key : ∀ n : Int, 0 ≤ n → n ≤ (c.output_size : Int) →
      toSize ((c.output_size : Int) - n) ≤ IO_BUF_SIZE := by
    intro n h0 hn
    obtain ⟨m, hm⟩ := Int.eq_ofNat_of_zero_le h0
    have hm2 : m ≤ c.output_size := by
      rw [hm] at hn
      exact_mod_cast hn
    rw [hm, toSize_eq _ (c.output_size - m) (by omega) (le_trans (Nat.sub_le _ _) ho)]
    exact le_trans (Nat.sub_le _ _) ho
  have hz : (0 : Nat) ≤ IO_BUF_SIZE := Nat.zero_le _
  simp only [pn_connector_write]
  split_ifs
  all_goals first
    | exact ⟨hi, ho⟩
    | exact ⟨hi, hz⟩
    | exact ⟨hi, key _ (by omega) hle⟩

theorem process_read_sizes (recv : Nat → RecvResult) (c : pn_connector_t)
    (hr : ∀ cap, (recv cap).n ≤ (cap : Int)) (h : sizes_ok c) :
    sizes_ok (process_read recv c) := by
  simp only [process_read]
  split_ifs
  · exact pn_connector_read_sizes recv c hr h
  · exact h

theorem process_write_sizes {σ : Type} (T : Transport σ) (send : Buffer → Nat → SendResult)
    (r : pn_connector_t × σ) (hT : ∀ s cap, (T.output s cap).1.n ≤ (cap : Int))
    (hs : ∀ buf len, (send buf len).n ≤ (len : Int)) (h : sizes_ok r.1) :
    sizes_ok (process_write T send r).1 := by
  simp only [process_write]
  split_ifs
  · apply pn_connector_process_output_sizes T _ _ hT
    exact pn_connector_write_sizes send r.1 hs h
  · exact h

theorem process_steps_sizes {σ : Type} (T : Transport σ) (recv : Nat → RecvResult)
    (send : Buffer → Nat → SendResult) (now : Int) (c : pn_connector_t) (t : σ)
    (hT : transport_ok T) (hr : ∀ cap, (recv cap).n ≤ (cap : Int))
    (hs : ∀ buf len, (send buf len).n ≤ (len : Int)) (h : sizes_ok c) :
    sizes_ok (process_steps T recv send now c t).1 := by
  simp only [process_steps]
  apply process_write_sizes T send _ hT.2 hs
  apply pn_connector_process_output_sizes T _ _ hT.2
  have h2 := pn_connector_process_input_sizes T (process_read recv c) t hT.1
    (process_read_sizes recv c hr h)
  exact h2

theorem pn_connector_process_sizes {σ : Type} (T : Transport σ) (recv : Nat → RecvResult)
    (send : Buffer → Nat → SendResult) (now : Int) (d : pn_driver_t) (c : pn_connector_t)
    (t : σ) (hT : transport_ok T) (hr : ∀ cap, (recv cap).n ≤ (cap : Int))
    (hs : ∀ buf len, (send buf len).n ≤ (len : Int)) (h : sizes_ok c) :
    sizes_ok (pn_connector_process T recv send now d c t).2.1 := by
  have h2 := process_steps_sizes T recv send now c t hT hr hs h
  simp only [pn_connector_process]
  split_ifs
  · exact h
  · exact h2
  · exact h2

theorem process_calls_sizes {σ : Type} (T : Transport σ) (hT : transport_ok T)
    (calls : List ProcessCall) :
    ∀ s : pn_driver_t × pn_connector_t × σ, (∀ k ∈ calls, call_ok k) → sizes_ok s.2.1 →
      sizes_ok (process_calls T s calls).2.1 := by
  induction calls with
  | nil => intro s _ h; exact h
  | cons k rest ih =>
    intro s hk h
    simp only [process_calls]
    apply ih
    · intro k' hk'
      exact hk k' (List.mem_cons_of_mem _ hk')
    · have hk0 := hk k (List.mem_cons_self _ _)
      exact pn_connector_process_sizes T k.recv k.send k.now s.1 _ s.2.2 hT hk0.1 hk0.2 h

/-- C13: start from the freshly constructed connector (both sizes 0) and make any
sequence of `pn_connector_process` calls, each finding whatever pending flags were
left on the connector; if every receive returns at most the capacity offered, every
send reports at most the bytes given, the feed of the transport reports at most the
bytes supplied and its drain at most the capacity offered, then after every call
`input_size <= 65536` and `output_size <= 65536`. -/
theorem buffer_sizes_within_capacity {σ : Type} (T : Transport σ) (hT : transport_ok T)
    (calls : List ProcessCall) (hc : ∀ k ∈ calls, call_ok k) (d : pn_driver_t) (p fd : Nat)
    (t : σ) (n : Nat) :
    (process_calls T (d, new_connector p fd, t) (calls.take n)).2.1.input_size ≤ 65536 ∧
      (process_calls T (d, new_connector p fd, t) (calls.take n)).2.1.output_size ≤ 65536 := by
  have h0 : sizes_ok (new_connector p fd) := ⟨Nat.zero_le _, Nat.zero_le _⟩
  exact process_calls_sizes T hT (calls.take n) (d, new_connector p fd, t)
    (fun k hk => hc k (List.mem_of_mem_take hk)) h0


/-! ## Driver: the count of closed connectors -/

theorem connector_at_mem (d : pn_driver_t) (p : Nat) (c : pn_connector_t)
    (h : connector_at d p = some c) : c ∈ d.connectors ∧ c.id = p := by
  unfold connector_at at h
  exact ⟨List.mem_of_find?_eq_some h, by simpa using List.find?_some h⟩

theorem store_ids (cs : List pn_connector_t) (c : pn_connector_t) :
    (cs.map (fun x => if x.id == c.id then c else x)).map (fun x => x.id)
      = cs.map (fun x => x.id) := by
  rw [List.map_map]
  apply List.map_congr_left
  intro x _
  by_cases hx : x.id = c.id
  · simp [hx]
  · simp [hx]

theorem store_absent (cs : List pn_connector_t) (c : pn_connector_t)
    (h : c.id ∉ cs.map (fun x => x.id)) :
    cs.map (fun x => if x.id == c.id then c else x) = cs := by
  induction cs with
  | nil => rfl
  | cons a rest ih =>
    simp only [List.map_cons, List.mem_cons, not_or] at h
    have ha : ¬ ((a.id == c.id) = true) := by
      simp only [beq_iff_eq]
      exact fun e => h.1 e.symm
    rw [List.map_cons, if_neg ha, ih h.2]

theorem closed_length_cons (a : pn_connector_t) (rest : List pn_connector_t) :
    ((a :: rest).filter (fun c => c.closed)).length
      = (if a.closed then 1 else 0) + (rest.filter (fun c => c.closed)).length := by
  by_cases ha : a.closed = true
  · simp [List.filter_cons, ha, Nat.add_comm]
  · simp [List.filter_cons, ha]

theorem store_closed_count (cs : List pn_connector_t) :
    ∀ (c c1 : pn_connector_t), (cs.map (fun x => x.id)).Nodup → c ∈ cs → c1.id = c.id →
      ((cs.map (fun x => if x.id == c1.id then c1 else x)).filter (fun x => x.closed)).length
          + (if c.closed then 1 else 0)
        = (cs.filter (fun x => x.closed)).length + (if c1.closed then 1 else 0) := by
  induction cs with
  | nil => intro c c1 _ hc _; simp at hc
  | cons a rest ih =>
    intro c c1 hn hc hid
    simp only [List.map_cons, List.nodup_cons] at hn
    by_cases ha : a.id = c1.id
    · have hca : c = a := by
        rcases List.mem_cons.mp hc with h | h
        · exact h
        · exfalso
          apply hn.1
          rw [ha, hid]
          exact List.mem_map_of_mem _ h
      have habs : c1.id ∉ rest.map (fun x => x.id) := by
        rw [← ha]
        exact hn.1
      have hb : (a.id == c1.id) = true := by simpa using ha
      rw [List.map_cons, store_absent rest c1 habs, if_pos hb]
      rw [closed_length_cons, closed_length_cons, hca]
      omega
    · have hcr : c ∈ rest := by
        rcases List.mem_cons.mp hc with h | h
        · exfalso
          apply ha
          rw [hid, h]
        · exact h
      have := ih c c1 hn.2 hcr hid
      have hb : ¬ ((a.id == c1.id) = true) := by simpa using ha
      rw [List.map_cons, if_neg hb]
      rw [closed_length_cons, closed_length_cons]
      omega

theorem remove_closed_count (cs : List pn_connector_t) :
    ∀ (c : pn_connector_t), (cs.map (fun x => x.id)).Nodup → c ∈ cs →
      ((LL_REMOVE (fun x => x.id) cs c.id).filter (fun x => x.closed)).length
          + (if c.closed then 1 else 0)
        = (cs.filter (fun x => x.closed)).length := by
  induction cs with
  | nil => intro c _ hc; simp at hc
  | cons a rest ih =>
    intro c hn hc
    simp only [List.map_cons, List.nodup_cons] at hn
    by_cases ha : a.id = c.id
    · have hca : c = a := by
        rcases List.mem_cons.mp hc with h | h
        · exact h
        · exfalso
          apply hn.1
          rw [ha]
          exact List.mem_map_of_mem _ h
      have habs : ∀ x ∈ rest, (x.id != c.id) = true := by
        intro x hx
        simp only [bne_iff_ne, ne_eq]
        intro e
        apply hn.1
        rw [ha, ← e]
        exact List.mem_map_of_mem _ hx
      have hrest : LL_REMOVE (fun x => x.id) rest c.id = rest := by
        unfold LL_REMOVE
        exact List.filter_eq_self.mpr habs
      have hcons : LL_REMOVE (fun x => x.id) (a :: rest) c.id
          = LL_REMOVE (fun x => x.id) rest c.id := by
        simp [LL_REMOVE, List.filter_cons, ha]
      rw [hcons, hrest, closed_length_cons, hca]
      omega
    · have hcr : c ∈ rest := by
        rcases List.mem_cons.mp hc with h | h
        · exfalso
          apply ha
          rw [h]
        · exact h
      have := ih c hn.2 hcr
      have hcons : LL_REMOVE (fun x => x.id) (a :: rest) c.id
          = a :: LL_REMOVE (fun x => x.id) rest c.id := by
        simp [LL_REMOVE, List.filter_cons, ha]
      rw [hcons, closed_length_cons, closed_length_cons]
      omega

theorem pn_connector_read_id (recv : Nat → RecvResult) (c : pn_connector_t) :
    (pn_connector_read recv c).id = c.id := by
  simp only [pn_connector_read]
  split_ifs <;> rfl

theorem pn_connector_consume_id (c : pn_connector_t) (n : Int) :
    (pn_connector_consume c n).id = c.id := rfl

theorem pn_connector_process_input_id {σ : Type} (T : Transport σ) (c : pn_connector_t)
    (t : σ) : (pn_connector_process_input T c t).1.id = c.id := by
  simp only [pn_connector_process_input]
  split_ifs
  · exact pn_connector_consume_id _ _
  · dsimp only
    exact pn_connector_consume_id _ _
  · rfl
  · rfl

theorem pn_connector_process_output_id {σ : Type} (T : Transport σ) (c : pn_connector_t)
    (t : σ) : (pn_connector_process_output T c t).1.id = c.id := by
  simp only [pn_connector_process_output]
  split_ifs <;> rfl

theorem pn_connector_write_id (send : Buffer → Nat → SendResult) (c : pn_connector_t) :
    (pn_connector_write send c).id = c.id := by
  simp only [pn_connector_write]
  split_ifs <;> rfl

theorem process_read_id (recv : Nat → RecvResult) (c : pn_connector_t) :
    (process_read recv c).id = c.id := by
  simp only [process_read]
  split_ifs
  · exact pn_connector_read_id recv c
  · rfl

theorem process_write_id {σ : Type} (T : Transport σ) (send : Buffer → Nat → SendResult)
    (r : pn_connector_t × σ) : (process_write T send r).1.id = r.1.id := by
  simp only [process_write]
  split_ifs
  · rw [pn_connector_process_output_id]
    exact pn_connector_write_id send r.1
  · rfl

theorem process_steps_id {σ : Type} (T : Transport σ) (recv : Nat → RecvResult)
    (send : Buffer → Nat → SendResult) (now : Int) (c : pn_connector_t) (t : σ) :
    (process_steps T recv send now c t).1.id = c.id := by
  simp only [process_steps]
  rw [process_write_id, pn_connector_process_output_id]
  simp only [process_tick]
  rw [pn_connector_process_input_id, process_read_id]

theorem pn_connector_process_driver {σ : Type} (T : Transport σ) (recv : Nat → RecvResult)
    (send : Buffer → Nat → SendResult) (now : Int) (d : pn_driver_t) (c : pn_connector_t)
    (t : σ) :
    (pn_connector_process T recv send now d c t).2.1.id = c.id ∧
      (pn_connector_process T recv send now d c t).1 =
        { d with closed_count := d.closed_count +
            (if (pn_connector_process T recv send now d c t).2.1.closed && !c.closed
              then 1 else 0) } := by
  have hid := process_steps_id T recv send now c t
  have hcl := process_steps_closed T recv send now c t
  by_cases hc : c.closed = true
  · have hp : pn_connector_process T recv send now d c t = (d, c, t) := by
      simp [pn_connector_process, hc]
    rw [hp]
    simp [hc]
  · have hc2 : c.closed = false := by simpa using hc
    by_cases hd : close_due (process_steps T recv send now c t).1 = true
    · have hp : pn_connector_process T recv send now d c t =
          ((pn_connector_close d (process_steps T recv send now c t).1).1,
            (pn_connector_close d (process_steps T recv send now c t).1).2,
            (process_steps T recv send now c t).2) := by
        simp [pn_connector_process, hc2, hd]
      rw [hp]
      refine ⟨hid, ?_⟩
      simp [pn_connector_close, hc2]
    · have hp : pn_connector_process T recv send now d c t =
          (d, (process_steps T recv send now c t).1, (process_steps T recv send now c t).2) := by
        simp [pn_connector_process, hc2, hd]
      rw [hp]
      refine ⟨hid, ?_⟩
      simp [hcl, hc2]

theorem counted_pn_driver (ctrl0 ctrl1 : Nat) : Counted (pn_driver ctrl0 ctrl1) :=
  ⟨by simp [pn_driver], by simp [pn_driver, closed_connectors]⟩

theorem counted_connector_fd (d : pn_driver_t) (p fd : Nat) (h : Counted d)
    (hp : d.connectors.any (fun c => c.id == p) = false) : Counted (pn_connector_fd d p fd) := by
  have hfresh : p ∉ d.connectors.map (fun c => c.id) := by
    simp only [List.any_eq_false, beq_iff_eq] at hp
    simp only [List.mem_map, not_exists, not_and]
    intro x hx hxp
    exact hp x hx hxp
  refine ⟨?_, ?_⟩
  · simp only [pn_connector_fd, pn_driver_add_connector, LL_ADD, List.map_append,
      List.map_cons, List.map_nil, new_connector]
    exact List.Nodup.append h.nodup (List.nodup_singleton p)
      (by simpa [List.disjoint_singleton] using hfresh)
  · have hc := h.count
    simp only [closed_connectors] at hc
    simp only [pn_connector_fd, pn_driver_add_connector, LL_ADD, closed_connectors,
      List.filter_append, List.length_append, hc]
    simp [new_connector]

theorem counted_store (d : pn_driver_t) (c c1 : pn_connector_t) (k : Nat) (h : Counted d)
    (hc : c ∈ d.connectors) (hid : c1.id = c.id)
    (hk : k + (if c.closed then 1 else 0) = d.closed_count + (if c1.closed then 1 else 0)) :
    Counted (store_connector { d with closed_count := k } c1) := by
  refine ⟨?_, ?_⟩
  · simp only [store_connector]
    rw [store_ids]
    exact h.nodup
  · have hs := store_closed_count d.connectors c c1 h.nodup hc hid
    have hcount := h.count
    simp only [closed_connectors] at hcount
    simp only [store_connector, closed_connectors]
    omega

theorem counted_process {σ : Type} (T : Transport σ) (recv : Nat → RecvResult)
    (send : Buffer → Nat → SendResult) (now : Int) (d : pn_driver_t) (p : Nat) (t : σ)
    (h : Counted d) : Counted (connector_step T d (.process p recv send now t)) := by
  simp only [connector_step]
  cases hat : connector_at d p with
  | none => exact h
  | some c =>
    obtain ⟨hmem, _⟩ := connector_at_mem d p c hat
    obtain ⟨hid, hd⟩ := pn_connector_process_driver T recv send now d c t
    simp only []
    rw [hd]
    apply counted_store d c _ _ h hmem hid
    by_cases hc : c.closed = true
    · have hp : pn_connector_process T recv send now d c t = (d, c, t) := by
        simp [pn_connector_process, hc]
      rw [hp]
      simp [hc]
    · have hc2 : c.closed = false := by simpa using hc
      by_cases hc1 : (pn_connector_process T recv send now d c t).2.1.closed = true
      · simp [hc2, hc1]
      · simp [hc2, hc1]

theorem counted_close {σ : Type} (T : Transport σ) (d : pn_driver_t) (p : Nat) (h : Counted d)
    (hok : connector_op_ok d (ConnectorOp.close p : ConnectorOp σ) = true) :
    Counted (connector_step T d (.close p)) := by
  simp only [connector_step]
  cases hat : connector_at d p with
  | none => exact h
  | some c =>
    obtain ⟨hmem, _⟩ := connector_at_mem d p c hat
    have hc : c.closed = false := by
      simpa [connector_op_ok, hat] using hok
    simp only [pn_connector_close]
    exact counted_store d c { c with status := 0, closed := true } (d.closed_count + 1) h hmem
      rfl (by simp [hc])

theorem remove_connector_count (d : pn_driver_t) (c : pn_connector_t) :
    (pn_driver_remove_connector d c).closed_count =
      if c.closed then d.closed_count - 1 else d.closed_count := by
  unfold pn_driver_remove_connector
  by_cases h : d.connector_next = some c.id <;> by_cases hc : c.closed <;> simp [h, hc]

theorem counted_free (d : pn_driver_t) (p : Nat) (h : Counted d) :
    Counted (pn_connector_free d p) := by
  simp only [pn_connector_free]
  cases hat : d.connectors.find? (fun c => c.id == p) with
  | none => exact h
  | some c =>
    have hmem : c ∈ d.connectors := List.mem_of_find?_eq_some hat
    simp only []
    refine ⟨?_, ?_⟩
    · rw [remove_connector_list]
      exact nodup_LL_REMOVE _ _ _ h.nodup
    · have hr := remove_closed_count d.connectors c h.nodup hmem
      have hcount := h.count
      simp only [closed_connectors] at hcount
      simp only [closed_connectors]
      rw [remove_connector_count, remove_connector_list]
      by_cases hc : c.closed = true
      · simp only [hc, if_true] at hr ⊢
        omega
      · have hc2 : c.closed = false := by simpa using hc
        simp only [hc2, Bool.false_eq_true, if_false] at hr ⊢
        omega

theorem wait_3_closed_connectors (now : Int) (d : pn_driver_t) :
    closed_connectors (pn_driver_wait_3 now d) = closed_connectors d := by
  simp only [closed_connectors, pn_driver_wait_3, List.filter_map, List.length_map]
  congr 1
  apply List.filter_congr
  intro c _
  by_cases hc : c.closed = true
  · simp [hc]
  · simp [hc]

theorem counted_wait_3 (now : Int) (d : pn_driver_t) (r w : fd_set) (h : Counted d) :
    Counted (pn_driver_wait_3 now { d with readfds := r, writefds := w }) := by
  refine ⟨?_, ?_⟩
  · rw [wait_3_connector_ids]
    exact h.nodup
  · rw [wait_3_closed_connectors]
    exact h.count

theorem counted_step {σ : Type} (T : Transport σ) (d : pn_driver_t) (op : ConnectorOp σ)
    (h : Counted d) (hok : connector_op_ok d op = true) : Counted (connector_step T d op) := by
  cases op with
  | connector_fd p fd =>
    exact counted_connector_fd d p fd h (by simpa [connector_op_ok] using hok)
  | process p recv send now t => exact counted_process T recv send now d p t h
  | close p => exact counted_close T d p h hok
  | free p => exact counted_free d p h
  | wait_3 now r w => exact counted_wait_3 now d r w h

theorem counted_run {σ : Type} (T : Transport σ) (ops : List (ConnectorOp σ)) :
    ∀ d : pn_driver_t, Counted d → connector_run_ok T d ops = true →
      Counted (connector_run T d ops) := by
  induction ops with
  | nil => intro d h _; exact h
  | cons op rest ih =>
    intro d h hok
    simp only [connector_run_ok, Bool.and_eq_true] at hok
    exact ih (connector_step T d op) (counted_step T d op h hok.1) hok.2

/-- What the closed count tells when no connector is closed twice: after every
sequence of creations, `pn_connector_process` calls, Distributes, frees and explicit
closes of connectors that are not closed yet, `closed_count` is the number of linked
connectors whose `closed` flag is set. -/
theorem closed_count_of_regular_calls {σ : Type} (T : Transport σ) (ctrl0 ctrl1 : Nat)
    (ops : List (ConnectorOp σ)) (h : connector_run_ok T (pn_driver ctrl0 ctrl1) ops = true) :
    (connector_run T (pn_driver ctrl0 ctrl1) ops).closed_count
      = closed_connectors (connector_run T (pn_driver ctrl0 ctrl1) ops) :=
  (counted_run T ops (pn_driver ctrl0 ctrl1) (counted_pn_driver ctrl0 ctrl1) h).count

/-! ## Build: the interest sets when nothing overflows -/

theorem rebuild_connectors_sets (cs : List pn_connector_t) :
    ∀ a b : Rebuild, rebuild_connectors cs.length cs a = some b → b.overflow = false →
      b.readfds = ((cs.filter (fun c => !c.closed && has_bit c.status PN_SEL_RD)).map
          (fun c => c.fd)).foldl (fun s x => FD_SET x s) a.readfds ∧
        b.writefds = ((cs.filter (fun c => !c.closed && has_bit c.status PN_SEL_WR)).map
          (fun c => c.fd)).foldl (fun s x => FD_SET x s) a.writefds := by
  induction cs with
  | nil =>
    intro a b h _
    simp only [List.length_nil, rebuild_connectors, Option.some.injEq] at h
    subst h
    exact ⟨rfl, rfl⟩
  | cons c rest ih =>
    intro a b h ho
    simp only [List.length_cons, rebuild_connectors] at h
    by_cases hc : c.closed = true
    · simp only [hc, Bool.not_true, Bool.false_eq_true, if_false] at h
      obtain ⟨h1, h2⟩ := ih a b h ho
      simp only [List.filter_cons, hc, Bool.not_true, Bool.false_and, Bool.false_eq_true,
        if_false]
      exact ⟨h1, h2⟩
    · have hc2 : c.closed = false := by simpa using hc
      simp only [hc2, Bool.not_false, if_true] at h
      by_cases hrd : has_bit c.status PN_SEL_RD = true
      · by_cases hr0 : a.r_avail = 0
        · simp only [hrd, hr0, beq_self_eq_true, Bool.and_self, if_true,
            Option.some.injEq] at h
          subst h
          simp at ho
        · have hr0' : (a.r_avail == 0) = false := by simpa using hr0
          simp only [hrd, hr0', Bool.and_false, Bool.false_eq_true, if_false, if_true] at h
          by_cases hwr : has_bit c.status PN_SEL_WR = true
          · by_cases hw0 : a.w_avail = 0
            · simp only [hwr, hw0, beq_self_eq_true, Bool.and_self, if_true,
                Option.some.injEq] at h
              subst h
              simp at ho
            · have hw0' : (a.w_avail == 0) = false := by simpa using hw0
              simp only [hwr, hw0', Bool.and_false, Bool.false_eq_true, if_false, if_true] at h
              obtain ⟨h1, h2⟩ := ih _ b h ho
              simp only at h1 h2
              simp only [List.filter_cons, hc2, hrd, hwr, Bool.not_false, Bool.and_self,
                if_true, List.map_cons, List.foldl_cons]
              exact ⟨h1, h2⟩
          · have hwr' : has_bit c.status PN_SEL_WR = false := by simpa using hwr
            simp only [hwr', Bool.false_and, Bool.false_eq_true, if_false] at h
            obtain ⟨h1, h2⟩ := ih _ b h ho
            simp only at h1 h2
            simp only [List.filter_cons, hc2, hrd, hwr', Bool.not_false, Bool.and_self,
              Bool.and_false, Bool.false_eq_true, if_true, if_false, List.map_cons,
              List.foldl_cons]
            exact ⟨h1, h2⟩
      · have hrd' : has_bit c.status PN_SEL_RD = false := by simpa using hrd
        simp only [hrd', Bool.false_and, Bool.false_eq_true, if_false] at h
        by_cases hwr : has_bit c.status PN_SEL_WR = true
        · by_cases hw0 : a.w_avail = 0
          · simp only [hwr, hw0, beq_self_eq_true, Bool.and_self, if_true,
              Option.some.injEq] at h
            subst h
            simp at ho
          · have hw0' : (a.w_avail == 0) = false := by simpa using hw0
            simp only [hwr, hw0', Bool.and_false, Bool.false_eq_true, if_false, if_true] at h
            obtain ⟨h1, h2⟩ := ih _ b h ho
            simp only at h1 h2
            simp only [List.filter_cons, hc2, hrd', hwr, Bool.not_false, Bool.and_self,
              Bool.and_false, Bool.false_eq_true, if_true, if_false, List.map_cons,
              List.foldl_cons]
            exact ⟨h1, h2⟩
        · have hwr' : has_bit c.status PN_SEL_WR = false := by simpa using hwr
          simp only [hwr', Bool.false_and, Bool.false_eq_true, if_false] at h
          obtain ⟨h1, h2⟩ := ih _ b h ho
          simp only at h1 h2
          simp only [List.filter_cons, hc2, hrd', hwr', Bool.not_false, Bool.and_false,
            Bool.false_eq_true, if_false]
          exact ⟨h1, h2⟩

theorem pn_driver_rebuild_sets (d d1 : pn_driver_t)
    (hl : d.listener_count = d.listeners.length)
    (hc : d.connector_count = d.connectors.length)
    (h : pn_driver_rebuild d = some d1) (ho : d1.overflow = false) :
    d1.readfds = (d.listeners.map (fun l => l.fd) ++
        (d.connectors.filter (fun c => !c.closed && has_bit c.status PN_SEL_RD)).map
          (fun c => c.fd)).foldl (fun s x => FD_SET x s) [d.ctrl0] ∧
      d1.writefds = (write_interest d).foldl (fun s x => FD_SET x s) [] := by
  simp only [pn_driver_rebuild, hl, hc] at h
  cases ha : rebuild_listeners d.listeners.length d.listeners (rebuild_start d) with
  | none => simp [ha] at h
  | some a =>
    simp only [ha] at h
    cases hb : rebuild_connectors d.connectors.length d.connectors a with
    | none => simp [hb] at h
    | some b =>
      simp only [hb, Option.some.injEq] at h
      subst h
      simp only at ho
      obtain ⟨_, _, c3⟩ := rebuild_connectors_count d.connectors a b hb ho
      obtain ⟨l1, l2, _⟩ := rebuild_listeners_count d.listeners (rebuild_start d) a ha c3
      have hfit := rebuild_listeners_fit d.listeners (rebuild_start d) (by omega)
      rw [hfit] at ha
      simp only [Option.some.injEq] at ha
      obtain ⟨s1, s2⟩ := rebuild_connectors_sets d.connectors a b hb ho
      have hstart : (rebuild_start d).readfds = [d.ctrl0] := by
        simp [rebuild_start, FD_SET, FD_ZERO, FD_SETSIZE]
      have hstartw : (rebuild_start d).writefds = [] := rfl
      rw [← ha] at s1 s2
      simp only [hstart, hstartw] at s1 s2
      refine ⟨?_, ?_⟩
      · show b.readfds = _
        rw [s1, List.foldl_append, List.foldl_map (fun l : pn_listener_t => l.fd)]
      · show b.writefds = _
        rw [s2]
        rfl

theorem FD_SET_foldl_all (fs : List Nat) (s : fd_set) (hn : fs.Nodup) (hd : ∀ x ∈ fs, x ∉ s)
    (hl : s.length + fs.length ≤ FD_SETSIZE) :
    fs.foldl (fun s x => FD_SET x s) s = s ++ fs := by
  rw [FD_SET_foldl_fresh fs s hn hd (by omega), List.take_of_length_le (by omega)]

theorem mem_map_fd_filter (cs : List pn_connector_t) (q : pn_connector_t → Bool)
    (c : pn_connector_t) (hn : (cs.map (fun x => x.fd)).Nodup) (hc : c ∈ cs) :
    c.fd ∈ (cs.filter q).map (fun x => x.fd) ↔ q c = true := by
  constructor
  · intro h
    simp only [List.mem_map, List.mem_filter] at h
    obtain ⟨x, ⟨hx, hq⟩, hfd⟩ := h
    have : x = c := List.inj_on_of_nodup_map hn hx hc hfd
    rw [← this]
    exact hq
  · intro h
    exact List.mem_map_of_mem _ (List.mem_filter.mpr ⟨hc, h⟩)

/-- What holds of the interest sets: when `pn_driver_rebuild` ends without overflow
and all registered descriptors are distinct, a connector's descriptor is in the
write-interest set iff the connector is not closed and has the write bit; and, as
long as the descriptors to enter the read-interest set are no more than its
`FD_SETSIZE` slots, it is in the read-interest set iff the connector is not closed
and has the read bit. -/
theorem pn_driver_rebuild_interest (d d1 : pn_driver_t)
    (hl : d.listener_count = d.listeners.length)
    (hc : d.connector_count = d.connectors.length)
    (h : pn_driver_rebuild d = some d1) (ho : d1.overflow = false)
    (hn : (descriptors d).Nodup) :
    (∀ c ∈ d.connectors,
        (c.fd ∈ d1.writefds ↔ (c.closed = false ∧ has_bit c.status PN_SEL_WR = true))) ∧
      ((read_interest d).length ≤ FD_SETSIZE → ∀ c ∈ d.connectors,
        (c.fd ∈ d1.readfds ↔ (c.closed = false ∧ has_bit c.status PN_SEL_RD = true))) := by
  obtain ⟨hr, hw⟩ := pn_driver_rebuild_sets d d1 hl hc h ho
  obtain ⟨_, hbw⟩ := pn_driver_rebuild_budget d d1 hl hc h ho
  simp only [descriptors, List.nodup_cons, List.mem_append, not_or] at hn
  obtain ⟨⟨hc0l, hc0c⟩, hnd⟩ := hn
  rw [List.nodup_append] at hnd
  obtain ⟨hnl, hnc, hdis⟩ := hnd
  have hsubw : ((d.connectors.filter (fun c => !c.closed && has_bit c.status PN_SEL_WR)).map
      (fun c => c.fd)).Sublist (d.connectors.map (fun c => c.fd)) :=
    (List.filter_sublist _).map _
  have hsubr : ((d.connectors.filter (fun c => !c.closed && has_bit c.status PN_SEL_RD)).map
      (fun c => c.fd)).Sublist (d.connectors.map (fun c => c.fd)) :=
    (List.filter_sublist _).map _
  constructor
  · intro c hcm
    have hwset : d1.writefds = write_interest d := by
      rw [hw, FD_SET_foldl_all (write_interest d) [] (hnc.sublist hsubw)
        (fun _ _ => List.not_mem_nil _)
        (by simp only [List.length_nil, Nat.zero_add]; exact hbw)]
      rfl
    rw [hwset]
    unfold write_interest
    rw [mem_map_fd_filter d.connectors _ c hnc hcm]
    simp
  · intro hlen c hcm
    have hnr : (d.listeners.map (fun l => l.fd) ++
        (d.connectors.filter (fun c => !c.closed && has_bit c.status PN_SEL_RD)).map
          (fun c => c.fd)).Nodup := by
      rw [List.nodup_append]
      exact ⟨hnl, hnc.sublist hsubr, fun x hx hy => hdis hx (hsubr.subset hy)⟩
    have hfresh : ∀ x ∈ (d.listeners.map (fun l => l.fd) ++
        (d.connectors.filter (fun c => !c.closed && has_bit c.status PN_SEL_RD)).map
          (fun c => c.fd)), x ∉ [d.ctrl0] := by
      intro x hx hx0
      simp only [List.mem_singleton] at hx0
      subst hx0
      rcases List.mem_append.mp hx with h1 | h1
      · exact hc0l h1
      · exact hc0c (hsubr.subset h1)
    have hrset : d1.readfds = read_interest d := by
      rw [hr, FD_SET_foldl_all _ [d.ctrl0] hnr hfresh
        (by simp only [read_interest, List.length_cons] at hlen
            simp only [List.length_singleton]
            omega)]
      rfl
    rw [hrset]
    unfold read_interest
    have hne : c.fd ≠ d.ctrl0 := by
      intro e
      apply hc0c
      rw [← e]
      exact List.mem_map_of_mem _ hcm
    have hnl2 : c.fd ∉ d.listeners.map (fun l => l.fd) := by
      intro hx
      exact hdis hx (List.mem_map_of_mem _ hcm)
    simp only [List.mem_cons, List.mem_append, hne, hnl2, false_or]
    rw [mem_map_fd_filter d.connectors _ c hnc hcm]
    simp

/-! ## Concrete runs of the later properties -/

theorem echo_stub_ok : transport_ok echo_stub := by
  refine ⟨fun s buf size => ?_, fun s cap => ?_⟩
  · simp [echo_stub]
  · simp [echo_stub]

theorem sample_process_calls_ok : ∀ k ∈ sample_process_calls, call_ok k := by
  intro k hk
  simp only [sample_process_calls, List.mem_cons, List.mem_singleton, List.not_mem_nil,
    or_false] at hk
  rcases hk with rfl | rfl
  · refine ⟨fun cap => ?_, fun buf len => ?_⟩
    · simp [recv_three]
    · simp [send_one]
  · refine ⟨fun cap => ?_, fun buf len => ?_⟩
    · simp [recv_none]
      omega
    · simp [send_one]

/-- C13 at two calls with the echo stub. -/
theorem buffer_sizes_within_capacity_witness :
    transport_ok echo_stub ∧ (∀ k ∈ sample_process_calls, call_ok k) ∧
      (process_calls echo_stub (pn_driver 3 4, new_connector 20 7, [])
        (sample_process_calls.take 2)).2.1.input_size ≤ 65536 ∧
      (process_calls echo_stub (pn_driver 3 4, new_connector 20 7, [])
        (sample_process_calls.take 2)).2.1.output_size ≤ 65536 :=
  ⟨echo_stub_ok, sample_process_calls_ok,
    buffer_sizes_within_capacity echo_stub echo_stub_ok sample_process_calls
      sample_process_calls_ok (pn_driver 3 4) 20 7 [] 2⟩

/-- The two sample calls evaluated: three bytes are received, echoed and one of them
sent in the first call, one more is sent in the second. -/
theorem sample_process_calls_sizes :
    (process_calls echo_stub (pn_driver 3 4, new_connector 20 7, [])
        (sample_process_calls.take 1)).2.1.output_size = 2 ∧
      (process_calls echo_stub (pn_driver 3 4, new_connector 20 7, [])
        sample_process_calls).2.1.output_size = 1 ∧
      (process_calls echo_stub (pn_driver 3 4, new_connector 20 7, [])
        sample_process_calls).2.1.input_size = 0 := by
  decide

/-- C14, at a connector closed twice: after a creation and two explicit
`pn_connector_close` calls on the same connector, `closed_count` is 2 while one linked
connector has its `closed` flag set; the same holds when `pn_connector_process` has
closed the connector and an explicit `pn_connector_close` follows. -/
theorem closed_count_after_double_close :
    (connector_run finished_stub (pn_driver 3 4) double_close_calls).closed_count = 2 ∧
      closed_connectors (connector_run finished_stub (pn_driver 3 4) double_close_calls) = 1 ∧
      (connector_run finished_stub (pn_driver 3 4) close_after_process_calls).closed_count = 2 ∧
      closed_connectors (connector_run finished_stub (pn_driver 3 4) close_after_process_calls)
        = 1 := by
  decide

/-- The closed count at a regular run: two connectors, one closed explicitly and
freed, the other closed by `pn_connector_process`. -/
theorem closed_count_of_regular_calls_sample :
    connector_run_ok finished_stub (pn_driver 3 4) sample_connector_calls = true ∧
      (connector_run finished_stub (pn_driver 3 4) sample_connector_calls).closed_count = 1 ∧
      closed_connectors (connector_run finished_stub (pn_driver 3 4) sample_connector_calls)
        = 1 := by
  decide

end Proton
